import Mathlib

/-!
Verification of the storage-and-concurrency core of the bustub-based
educational database engine, by shallow embedding of its C++ sources into
Lean 4.  Machine integers (size_t) are modelled as Nat with explicit
reduction modulo 2 ^ 64 where overflow can matter.  Data structures:
std::list and std::deque are Lean lists, std::map and std::set are
association lists and sorted duplicate-free lists, arrays inside pages are
total functions from Nat.
-/

namespace BusTub

/-! ## LRU-K replacer (src/buffer/lru_k_replacer.cpp)

The header lru_k_replacer.h is not part of the sources; the node layout is
modelled from the spec: per tracked frame a bounded history of the last k
access timestamps (the cpp pushes fresh timestamps at the front and pops at
the back, so the list is newest-first and the back is the oldest timestamp
in the window), an evictable flag and the frame id.  node_store_ is a map
from frame id to node, embedded as an association list. -/

def SIZE_T_MOD : Nat := 2 ^ 64

/-- size_t(-1), the +infinity marker used by Evict for short histories. -/
def SIZE_T_MAX : Nat := 2 ^ 64 - 1

structure LRUKNode where
  fid : Nat
  history : List Nat
  isEvictable : Bool
  deriving Repr, DecidableEq

structure LRUKReplacer where
  k : Nat
  replacerSize : Nat
  nodeStore : List (Nat × LRUKNode)
  currentTimestamp : Nat
  currSize : Nat
  deriving Repr, DecidableEq

/-- LRUKReplacer constructor: num_frames and k are stored, everything else
is empty. -/
def LRUKReplacer.init (numFrames k : Nat) : LRUKReplacer :=
  ⟨k, numFrames, [], 0, 0⟩

/-- node.history_.back(): the oldest timestamp in the window.  The cpp
calls it on nonempty histories only; the default is irrelevant there. -/
def histBack (h : List Nat) : Nat := h.getLast?.getD 0

/-- The backward distance Evict computes for one node: size_t arithmetic
current_timestamp_ - history_.back() when the history holds exactly k
entries, size_t(-1) otherwise. -/
def codeDist (k ct : Nat) (n : LRUKNode) : Nat :=
  if n.history.length = k then (SIZE_T_MOD + ct - histBack n.history) % SIZE_T_MOD
  else SIZE_T_MAX

/-- The running accumulator of the scan inside LRUKReplacer::Evict. -/
structure EvictAcc where
  deleteFrameId : Nat
  isFound : Bool
  distance : Nat
  lastVisitTime : Nat
  deriving Repr, DecidableEq

/-- The comparison in Evict that decides whether a candidate replaces the
accumulator: distance_ > distance or an equal distance with a smaller
last-visit (oldest-in-window) time. -/
def accBetter (d lv : Nat) (acc : EvictAcc) : Bool :=
  decide (d > acc.distance) || (decide (d = acc.distance) && decide (lv < acc.lastVisitTime))

/-- The loop of LRUKReplacer::Evict over node_store_. -/
def evictScan (k ct : Nat) : List (Nat × LRUKNode) → EvictAcc → EvictAcc
  | [], acc => acc
  | (fid, node) :: rest, acc =>
    if node.isEvictable then
      let lv := histBack node.history
      let d := codeDist k ct node
      if accBetter d lv acc then evictScan k ct rest ⟨fid, true, d, lv⟩
      else evictScan k ct rest acc
    else evictScan k ct rest acc

/-- LRUKReplacer::Evict: scan all nodes, return the best evictable frame
and erase its metadata, or fail.  curr_size_-- is size_t arithmetic. -/
def LRUKReplacer.evict (r : LRUKReplacer) : Option Nat × LRUKReplacer :=
  let acc := evictScan r.k r.currentTimestamp r.nodeStore ⟨0, false, 0, 0⟩
  if acc.isFound then
    (some acc.deleteFrameId,
      { r with
        nodeStore := r.nodeStore.filter (fun p => p.1 ≠ acc.deleteFrameId),
        currSize := (SIZE_T_MOD + r.currSize - 1) % SIZE_T_MOD })
  else (none, r)

/-- Association-list lookup, the find of node_store_. -/
def storeFind (store : List (Nat × LRUKNode)) (fid : Nat) : Option LRUKNode :=
  match store with
  | [] => none
  | (f, n) :: rest => if f = fid then some n else storeFind rest fid

/-- In-place update of the entry for a key (position preserved). -/
def storeSet (store : List (Nat × LRUKNode)) (fid : Nat) (n : LRUKNode) :
    List (Nat × LRUKNode) :=
  match store with
  | [] => [(fid, n)]
  | (f, m) :: rest => if f = fid then (f, n) :: rest else (f, m) :: storeSet rest fid n

/-- LRUKReplacer::RecordAccess: push a fresh timestamp at the front of the
frame history, truncating to k entries, or create the node.  The
timestamp counter is size_t. -/
def LRUKReplacer.recordAccess (r : LRUKReplacer) (fid : Nat) : LRUKReplacer :=
  match storeFind r.nodeStore fid with
  | some node =>
    if node.fid = fid then
      let h := r.currentTimestamp :: node.history
      let h := if h.length > r.k then h.dropLast else h
      { r with
        nodeStore := storeSet r.nodeStore fid { node with history := h },
        currentTimestamp := (r.currentTimestamp + 1) % SIZE_T_MOD }
    else
      { r with
        nodeStore := storeSet r.nodeStore fid ⟨fid, [r.currentTimestamp], false⟩,
        currentTimestamp := (r.currentTimestamp + 1) % SIZE_T_MOD }
  | none =>
    { r with
      nodeStore := storeSet r.nodeStore fid ⟨fid, [r.currentTimestamp], false⟩,
      currentTimestamp := (r.currentTimestamp + 1) % SIZE_T_MOD }

/-- LRUKReplacer::SetEvictable: toggle the flag and maintain curr_size_. -/
def LRUKReplacer.setEvictable (r : LRUKReplacer) (fid : Nat) (e : Bool) : LRUKReplacer :=
  match storeFind r.nodeStore fid with
  | some node =>
    if node.fid = fid then
      if e = node.isEvictable then r
      else
        { r with
          nodeStore := storeSet r.nodeStore fid { node with isEvictable := e },
          currSize :=
            if e then (r.currSize + 1) % SIZE_T_MOD
            else (SIZE_T_MOD + r.currSize - 1) % SIZE_T_MOD }
    else r
  | none => r

/-- LRUKReplacer::Remove: a no-op for unknown or non-evictable frames;
otherwise erase the node and decrement current_timestamp_ (the cpp touches
the timestamp counter here, not curr_size_). -/
def LRUKReplacer.remove (r : LRUKReplacer) (fid : Nat) : LRUKReplacer :=
  match storeFind r.nodeStore fid with
  | none => r
  | some node =>
    if node.isEvictable = false then r
    else
      { r with
        nodeStore := r.nodeStore.filter (fun p => p.1 ≠ fid),
        currentTimestamp := (SIZE_T_MOD + r.currentTimestamp - 1) % SIZE_T_MOD }

/-- LRUKReplacer::Size. -/
def LRUKReplacer.size (r : LRUKReplacer) : Nat := r.currSize

/-- The number of tracked frames whose evictable flag is true. -/
def countEvictable (store : List (Nat × LRUKNode)) : Nat :=
  (store.filter (fun p => p.2.isEvictable)).length

/-! Spec-side description of the eviction policy (section 4.1 of the spec):
the backward k-distance is current_ts - timestamp_of_kth_most_recent_access
when the history holds k entries, +infinity (none) otherwise. -/

def specKDist (k ct : Nat) (n : LRUKNode) : Option Nat :=
  if k ≤ n.history.length then some (ct - histBack n.history) else none

/-- Order on backward k-distances with none as +infinity. -/
def specDistLE : Option Nat → Option Nat → Prop
  | _, none => True
  | none, some _ => False
  | some a, some b => a ≤ b

/-- Timestamp-consistent tracked-frame states: histories are nonempty,
hold at most k entries, and every recorded timestamp lies strictly below
the current counter, which has not overflowed.  RecordAccess and
SetEvictable preserve this, but Remove decrements current_timestamp_, so
the replacer API can also reach states outside this predicate in which a
recorded timestamp has caught up with (or passed) the counter. -/
def LRUKReplacer.Valid (r : LRUKReplacer) : Prop :=
  r.currentTimestamp < SIZE_T_MAX ∧
  ∀ p ∈ r.nodeStore, p.2.history ≠ [] ∧ p.2.history.length ≤ r.k ∧
    ∀ t ∈ p.2.history, t < r.currentTimestamp

theorem histBack_mem {h : List Nat} (hne : h ≠ []) : histBack h ∈ h := by
  unfold histBack
  rw [List.getLast?_eq_getLast h hne]
  exact List.getLast_mem hne

theorem wrap_sub {b ct : Nat} (hb : b ≤ ct) (hct : ct < SIZE_T_MOD) :
    (SIZE_T_MOD + ct - b) % SIZE_T_MOD = ct - b := by
  rw [Nat.add_sub_assoc hb, Nat.add_mod_left]
  exact Nat.mod_eq_of_lt (lt_of_le_of_lt (Nat.sub_le _ _) hct)

theorem SIZE_T_MAX_lt_MOD : SIZE_T_MAX < SIZE_T_MOD := by
  unfold SIZE_T_MAX SIZE_T_MOD
  omega

/-- For a valid node with a full history the code distance is the honest
subtraction, strictly below the infinity marker. -/
theorem codeDist_full {k ct : Nat} {n : LRUKNode} (hne : n.history ≠ [])
    (ht : ∀ t ∈ n.history, t < ct) (hct : ct < SIZE_T_MAX)
    (hlen : n.history.length = k) :
    codeDist k ct n = ct - histBack n.history ∧ codeDist k ct n < SIZE_T_MAX := by
  have hb : histBack n.history < ct := ht _ (histBack_mem hne)
  have : codeDist k ct n = ct - histBack n.history := by
    unfold codeDist
    rw [if_pos hlen]
    exact wrap_sub (le_of_lt hb) (lt_trans hct SIZE_T_MAX_lt_MOD)
  refine ⟨this, ?_⟩
  rw [this]
  exact lt_of_le_of_lt (Nat.sub_le _ _) hct

theorem codeDist_short {k ct : Nat} {n : LRUKNode} (hlen : n.history.length ≠ k) :
    codeDist k ct n = SIZE_T_MAX := by
  unfold codeDist
  rw [if_neg hlen]

theorem specKDist_full {k ct : Nat} {n : LRUKNode} (_hk : n.history.length ≤ k)
    (hlen : n.history.length = k) :
    specKDist k ct n = some (ct - histBack n.history) := by
  unfold specKDist
  rw [if_pos (le_of_eq hlen.symm)]

theorem specKDist_short {k ct : Nat} {n : LRUKNode} (hk : n.history.length ≤ k)
    (hlen : n.history.length ≠ k) :
    specKDist k ct n = none := by
  unfold specKDist
  rw [if_neg (fun hle => hlen (le_antisymm hk hle))]

/-- For valid nodes the code comparison on distances agrees with the spec
order with none on top. -/
theorem codeDist_le_iff {k ct : Nat} {m n : LRUKNode}
    (hmne : m.history ≠ []) (hmk : m.history.length ≤ k)
    (hmt : ∀ t ∈ m.history, t < ct)
    (hnne : n.history ≠ []) (hnk : n.history.length ≤ k)
    (hnt : ∀ t ∈ n.history, t < ct) (hct : ct < SIZE_T_MAX) :
    (codeDist k ct m ≤ codeDist k ct n ↔
      specDistLE (specKDist k ct m) (specKDist k ct n)) ∧
    (codeDist k ct m = codeDist k ct n ↔ specKDist k ct m = specKDist k ct n) := by
  by_cases hm : m.history.length = k <;> by_cases hn : n.history.length = k
  · obtain ⟨hmd, _⟩ := codeDist_full hmne hmt hct hm
    obtain ⟨hnd, _⟩ := codeDist_full hnne hnt hct hn
    rw [hmd, hnd, specKDist_full hmk hm, specKDist_full hnk hn]
    constructor
    · exact Iff.rfl
    · simp
  · obtain ⟨hmd, hmlt⟩ := codeDist_full hmne hmt hct hm
    rw [hmd, codeDist_short hn, specKDist_full hmk hm, specKDist_short hnk hn]
    constructor
    · simp [specDistLE, le_of_lt (hmd ▸ hmlt)]
    · simp [ne_of_lt (hmd ▸ hmlt)]
  · obtain ⟨hnd, hnlt⟩ := codeDist_full hnne hnt hct hn
    rw [codeDist_short hm, hnd, specKDist_short hmk hm, specKDist_full hnk hn]
    constructor
    · simp [specDistLE, not_le_of_lt (hnd ▸ hnlt)]
    · simp [(ne_of_lt (hnd ▸ hnlt)).symm]
  · rw [codeDist_short hm, codeDist_short hn,
      specKDist_short hmk hm, specKDist_short hnk hn]
    simp [specDistLE]

/-- Transitive order into which the accumulator of the Evict scan only
ever moves forward. -/
def accLE (a b : EvictAcc) : Prop :=
  a.distance < b.distance ∨
    (a.distance = b.distance ∧ b.lastVisitTime ≤ a.lastVisitTime)

theorem accLE_refl (a : EvictAcc) : accLE a a := Or.inr ⟨rfl, le_refl _⟩

theorem accLE_trans {a b c : EvictAcc} (h₁ : accLE a b) (h₂ : accLE b c) :
    accLE a c := by
  rcases h₁ with h₁ | ⟨h₁, h₁'⟩ <;> rcases h₂ with h₂ | ⟨h₂, h₂'⟩
  · exact Or.inl (lt_trans h₁ h₂)
  · exact Or.inl (h₂ ▸ h₁)
  · exact Or.inl (h₁ ▸ h₂)
  · exact Or.inr ⟨h₁.trans h₂, le_trans h₂' h₁'⟩

theorem accBetter_true_iff (d lv : Nat) (acc : EvictAcc) :
    accBetter d lv acc = true ↔
      acc.distance < d ∨ (d = acc.distance ∧ lv < acc.lastVisitTime) := by
  unfold accBetter
  simp only [Bool.or_eq_true, Bool.and_eq_true, decide_eq_true_eq]

theorem accBetter_false_iff (d lv : Nat) (acc : EvictAcc) :
    accBetter d lv acc = false ↔ accLE ⟨0, true, d, lv⟩ acc := by
  unfold accBetter accLE
  simp only [Bool.or_eq_false_iff, Bool.and_eq_false_iff, decide_eq_false_iff_not]
  omega

theorem evictScan_no_evictable {k ct : Nat} {l : List (Nat × LRUKNode)}
    {acc : EvictAcc} (h : ∀ p ∈ l, p.2.isEvictable = false) :
    evictScan k ct l acc = acc := by
  induction l with
  | nil => rfl
  | cons p rest ih =>
    obtain ⟨f, n⟩ := p
    have hn : n.isEvictable = false := h (f, n) (List.mem_cons_self _ _)
    simp only [evictScan, hn]
    exact ih (fun q hq => h q (List.mem_cons_of_mem _ hq))

theorem evictScan_found_mono {k ct : Nat} (l : List (Nat × LRUKNode))
    (acc : EvictAcc) (h : acc.isFound = true) :
    (evictScan k ct l acc).isFound = true := by
  induction l generalizing acc with
  | nil => exact h
  | cons p rest ih =>
    obtain ⟨f, n⟩ := p
    simp only [evictScan]
    by_cases he : n.isEvictable
    · simp only [he, if_true]
      by_cases hb : accBetter (codeDist k ct n) (histBack n.history) acc
      · simp only [hb, if_true]
        exact ih _ rfl
      · simp only [hb, if_false]
        exact ih _ h
    · simp only [he, if_false]
      exact ih _ h

theorem evictScan_accLE {k ct : Nat} (l : List (Nat × LRUKNode))
    (acc : EvictAcc) : accLE acc (evictScan k ct l acc) := by
  induction l generalizing acc with
  | nil => exact accLE_refl acc
  | cons p rest ih =>
    obtain ⟨f, n⟩ := p
    simp only [evictScan]
    by_cases he : n.isEvictable
    · simp only [he, if_true]
      by_cases hb : accBetter (codeDist k ct n) (histBack n.history) acc = true
      · simp only [hb, if_true]
        refine accLE_trans ?_ (ih ⟨f, true, codeDist k ct n, histBack n.history⟩)
        rcases (accBetter_true_iff _ _ _).1 hb with h | ⟨h, h'⟩
        · exact Or.inl h
        · exact Or.inr ⟨h.symm, le_of_lt h'⟩
      · simp only [Bool.not_eq_true] at hb
        simp only [hb, if_false]
        exact ih acc
    · simp only [he, if_false]
      exact ih acc

theorem evictScan_found_of_evictable {k ct : Nat} {l : List (Nat × LRUKNode)}
    {acc : EvictAcc}
    (hd : ∀ p ∈ l, p.2.isEvictable = true → 0 < codeDist k ct p.2)
    (ha : acc.distance = 0) (q : Nat × LRUKNode) (hq : q ∈ l)
    (hqe : q.2.isEvictable = true) :
    (evictScan k ct l acc).isFound = true := by
  induction l generalizing acc with
  | nil => exact absurd hq (List.not_mem_nil q)
  | cons p rest ih =>
    obtain ⟨f, n⟩ := p
    simp only [evictScan]
    by_cases he : n.isEvictable
    · simp only [he, if_true]
      have hpos : 0 < codeDist k ct n := hd (f, n) (List.mem_cons_self _ _) he
      have hb : accBetter (codeDist k ct n) (histBack n.history) acc = true := by
        rw [accBetter_true_iff]
        exact Or.inl (by omega)
      simp only [hb, if_true]
      exact evictScan_found_mono rest _ rfl
    · simp only [he, if_false]
      rcases List.mem_cons.1 hq with hq' | hq'
      · rw [hq'] at hqe
        exact absurd hqe he
      · exact ih (fun r hr => hd r (List.mem_cons_of_mem _ hr)) ha hq'

/-- The scan result is either the initial accumulator or carries the
statistics of some evictable element of the list. -/
theorem evictScan_result {k ct : Nat} (l : List (Nat × LRUKNode))
    (acc : EvictAcc) :
    evictScan k ct l acc = acc ∨
      ∃ f n, (f, n) ∈ l ∧ n.isEvictable = true ∧
        (evictScan k ct l acc).deleteFrameId = f ∧
        (evictScan k ct l acc).distance = codeDist k ct n ∧
        (evictScan k ct l acc).lastVisitTime = histBack n.history ∧
        (evictScan k ct l acc).isFound = true := by
  induction l generalizing acc with
  | nil => exact Or.inl rfl
  | cons p rest ih =>
    obtain ⟨f, n⟩ := p
    simp only [evictScan]
    by_cases he : n.isEvictable
    · simp only [he, if_true]
      by_cases hb : accBetter (codeDist k ct n) (histBack n.history) acc = true
      · simp only [hb, if_true]
        rcases ih ⟨f, true, codeDist k ct n, histBack n.history⟩ with h | h
        · refine Or.inr ⟨f, n, List.mem_cons_self _ _, he, ?_⟩
          rw [h]
          exact ⟨rfl, rfl, rfl, rfl⟩
        · obtain ⟨f', n', hmem, hev, h₁, h₂, h₃, h₄⟩ := h
          exact Or.inr ⟨f', n', List.mem_cons_of_mem _ hmem, hev, h₁, h₂, h₃, h₄⟩
      · simp only [Bool.not_eq_true] at hb
        simp only [hb, if_false]
        rcases ih acc with h | h
        · exact Or.inl h
        · obtain ⟨f', n', hmem, hev, h₁, h₂, h₃, h₄⟩ := h
          exact Or.inr ⟨f', n', List.mem_cons_of_mem _ hmem, hev, h₁, h₂, h₃, h₄⟩
    · simp only [he, if_false]
      rcases ih acc with h | h
      · exact Or.inl h
      · obtain ⟨f', n', hmem, hev, h₁, h₂, h₃, h₄⟩ := h
        exact Or.inr ⟨f', n', List.mem_cons_of_mem _ hmem, hev, h₁, h₂, h₃, h₄⟩

/-- Every evictable element of the list is dominated by the scan result. -/
theorem evictScan_dominates {k ct : Nat} (l : List (Nat × LRUKNode))
    (acc : EvictAcc) :
    ∀ p ∈ l, p.2.isEvictable = true →
      accLE ⟨0, true, codeDist k ct p.2, histBack p.2.history⟩
        (evictScan k ct l acc) := by
  induction l generalizing acc with
  | nil => exact fun p hp => absurd hp (List.not_mem_nil p)
  | cons q rest ih =>
    intro p hp hpe
    obtain ⟨f, n⟩ := q
    simp only [evictScan]
    by_cases he : n.isEvictable
    · simp only [he, if_true]
      by_cases hb : accBetter (codeDist k ct n) (histBack n.history) acc = true
      · simp only [hb, if_true]
        rcases List.mem_cons.1 hp with hp' | hp'
        · subst hp'
          exact accLE_trans (accLE_refl _)
            (evictScan_accLE rest ⟨f, true, codeDist k ct n, histBack n.history⟩)
        · exact ih _ p hp' hpe
      · simp only [Bool.not_eq_true] at hb
        simp only [hb, if_false]
        rcases List.mem_cons.1 hp with hp' | hp'
        · subst hp'
          exact accLE_trans ((accBetter_false_iff _ _ _).1 hb) (evictScan_accLE rest acc)
        · exact ih _ p hp' hpe
    · simp only [he, if_false]
      rcases List.mem_cons.1 hp with hp' | hp'
      · rw [hp'] at hpe
        exact absurd hpe he
      · exact ih _ p hp' hpe

/-- On valid states Evict fails exactly when no evictable frame exists
(shared between the replacer policy theorem and the buffer pool). -/
theorem evict_none_iff (r : LRUKReplacer) (hv : r.Valid) :
    (r.evict).1 = none ↔ ∀ p ∈ r.nodeStore, p.2.isEvictable = false := by
  obtain ⟨hct, hnodes⟩ := hv
  have hpos : ∀ p ∈ r.nodeStore, p.2.isEvictable = true →
      0 < codeDist r.k r.currentTimestamp p.2 := by
    intro p hp _
    obtain ⟨hne, hk, ht⟩ := hnodes p hp
    by_cases hlen : p.2.history.length = r.k
    · obtain ⟨hd, _⟩ := codeDist_full hne ht hct hlen
      have := ht _ (histBack_mem hne)
      omega
    · rw [codeDist_short hlen]
      unfold SIZE_T_MAX
      omega
  unfold LRUKReplacer.evict
  set acc := evictScan r.k r.currentTimestamp r.nodeStore ⟨0, false, 0, 0⟩ with hacc
  constructor
  · intro hnone p hp
    by_cases hpe : p.2.isEvictable = true
    · have := @evictScan_found_of_evictable r.k r.currentTimestamp r.nodeStore ⟨0, false, 0, 0⟩ hpos rfl p hp hpe
      rw [← hacc] at this
      simp [this] at hnone
    · simpa using hpe
  · intro hall
    have : acc = ⟨0, false, 0, 0⟩ := by
      rw [hacc]
      exact evictScan_no_evictable hall
    simp [this]

/-- Spec-side statement of the eviction policy for one replacer state:
a successful Evict returns an evictable tracked frame maximising the
backward k-distance, ties broken by the smallest oldest-in-window
timestamp, and erases its metadata; Evict fails exactly when no
evictable frame exists. -/
def EvictPolicySpec (r : LRUKReplacer) : Prop :=
  (∀ f, (r.evict).1 = some f →
    ∃ n, (f, n) ∈ r.nodeStore ∧ n.isEvictable = true ∧
      (∀ p ∈ r.nodeStore, p.2.isEvictable = true →
        specDistLE (specKDist r.k r.currentTimestamp p.2)
          (specKDist r.k r.currentTimestamp n)) ∧
      (∀ p ∈ r.nodeStore, p.2.isEvictable = true →
        specKDist r.k r.currentTimestamp p.2 = specKDist r.k r.currentTimestamp n →
        histBack n.history ≤ histBack p.2.history) ∧
      (r.evict).2.nodeStore = r.nodeStore.filter (fun p => p.1 ≠ f)) ∧
  ((r.evict).1 = none ↔ ∀ p ∈ r.nodeStore, p.2.isEvictable = false)

/-- Claim C6 amended: on every timestamp-consistent tracked-frame state
(all recorded timestamps strictly below the current counter), a
successful Evict returns, among the evictable frames, one with the
largest backward k-distance (+infinity for short histories), ties broken
by the smallest oldest-in-window timestamp; it erases that frame's
metadata, and Evict fails exactly when no evictable frame exists.  On
states outside the predicate, reachable through the timestamp decrement
of Remove, the failure equivalence is false: a full-history frame whose
oldest timestamp equals the counter scores distance 0 and is never
selected, so Evict can fail although an evictable frame exists. -/
theorem lruEvict_policy (r : LRUKReplacer) (hv : r.Valid) : EvictPolicySpec r := by
  obtain ⟨hct, hnodes⟩ := hv
  have hpos : ∀ p ∈ r.nodeStore, p.2.isEvictable = true →
      0 < codeDist r.k r.currentTimestamp p.2 := by
    intro p hp _
    obtain ⟨hne, hk, ht⟩ := hnodes p hp
    by_cases hlen : p.2.history.length = r.k
    · obtain ⟨hd, _⟩ := codeDist_full hne ht hct hlen
      have := ht _ (histBack_mem hne)
      omega
    · rw [codeDist_short hlen]
      unfold SIZE_T_MAX
      omega
  constructor
  · intro f hf
    unfold LRUKReplacer.evict at hf ⊢
    set acc := evictScan r.k r.currentTimestamp r.nodeStore ⟨0, false, 0, 0⟩ with hacc
    by_cases hfound : acc.isFound = true
    · simp only [hfound, if_true] at hf ⊢
      have hfeq : acc.deleteFrameId = f := by
        simpa using hf
      rcases @evictScan_result r.k r.currentTimestamp r.nodeStore
          ⟨0, false, 0, 0⟩ with h | h
      · rw [← hacc] at h
        rw [h] at hfound
        simp at hfound
      · rw [← hacc] at h
        obtain ⟨f', n, hmem, hev, h₁, h₂, h₃, _⟩ := h
        rw [hfeq] at h₁
        subst h₁
        refine ⟨n, hmem, hev, ?_, ?_, by simp [hfeq]⟩
        · intro p hp hpe
          have hdom := @evictScan_dominates r.k r.currentTimestamp
            r.nodeStore ⟨0, false, 0, 0⟩ p hp hpe
          rw [← hacc] at hdom
          obtain ⟨hpne, hpk, hpt⟩ := hnodes p hp
          obtain ⟨hnne, hnk, hnt⟩ := hnodes (f, n) hmem
          have hle : codeDist r.k r.currentTimestamp p.2 ≤
              codeDist r.k r.currentTimestamp n := by
            rcases hdom with h | ⟨h, _⟩
            · simp only at h
              omega
            · simp only at h
              omega
          exact ((codeDist_le_iff hpne hpk hpt hnne hnk hnt hct).1).1 hle
        · intro p hp hpe hspec
          have hdom := @evictScan_dominates r.k r.currentTimestamp
            r.nodeStore ⟨0, false, 0, 0⟩ p hp hpe
          rw [← hacc] at hdom
          obtain ⟨hpne, hpk, hpt⟩ := hnodes p hp
          obtain ⟨hnne, hnk, hnt⟩ := hnodes (f, n) hmem
          have heqd : codeDist r.k r.currentTimestamp p.2 =
              codeDist r.k r.currentTimestamp n :=
            ((codeDist_le_iff hpne hpk hpt hnne hnk hnt hct).2).2 hspec
          rcases hdom with h | ⟨_, h⟩
          · simp only at h
            omega
          · simp only at h
            omega
    · simp only [Bool.not_eq_true] at hfound
      simp [hfound] at hf
  · exact evict_none_iff r ⟨hct, hnodes⟩

/-- A small concrete replacer state used to witness the policy theorem:
two frames with full 1-histories, both evictable. -/
def lruWitnessState : LRUKReplacer :=
  (((LRUKReplacer.init 2 1).recordAccess 4).recordAccess 7).setEvictable 4 true
    |>.setEvictable 7 true

theorem lruWitnessState_valid : lruWitnessState.Valid := by
  constructor
  · unfold lruWitnessState SIZE_T_MAX
    norm_num [LRUKReplacer.init, LRUKReplacer.recordAccess, LRUKReplacer.setEvictable,
      storeFind, storeSet, SIZE_T_MOD]
  · decide

/-- Witness for the C6 theorem at a concrete state. -/
theorem lruEvict_policy_witness : lruWitnessState.Valid ∧ EvictPolicySpec lruWitnessState :=
  ⟨lruWitnessState_valid, lruEvict_policy lruWitnessState lruWitnessState_valid⟩

/-- An API trace exhibiting the failure of the claim on states that the
timestamp decrement of Remove makes reachable: with k = 1, record frames
1, 2, 1, mark 2 evictable, remove it (the counter drops from 3 to 2,
equalling the sole timestamp of frame 1), then mark 1 evictable. -/
def lruTimestampClashTrace : LRUKReplacer :=
  ((((((LRUKReplacer.init 2 1).recordAccess 1).recordAccess 2).recordAccess 1)
    |>.setEvictable 2 true).remove 2).setEvictable 1 true

/-- Claim C6 counterexample: after the trace above, frame 1 is tracked
and evictable, yet Evict fails — its backward 1-distance evaluates to
current_timestamp_ - history_.back() = 2 - 2 = 0, which never beats the
zero-initialised accumulator, so is_found stays false.  This refutes the
unconditional reading of the claim (Evict fails exactly when no evictable
frame exists) on API-reachable states. -/
theorem lruEvict_fails_despite_evictable :
    (lruTimestampClashTrace.evict).1 = none ∧
      countEvictable lruTimestampClashTrace.nodeStore = 1 := by decide

/-! Claims C7 and C8: concrete traces. -/

/-- The spec scenario for the LRU-K tie-break: k = 2, pool of 3 frames,
accesses in frame order 1, 2, 3, 1, 2, 3, 1, then every frame marked
evictable. -/
def lruTieTrace : LRUKReplacer :=
  let r := [1, 2, 3, 1, 2, 3, 1].foldl LRUKReplacer.recordAccess (LRUKReplacer.init 3 2)
  ((r.setEvictable 1 true).setEvictable 2 true).setEvictable 3 true

/-- Claim C7 counterexample: after the access trace 1,2,3,1,2,3,1 with
k = 2 the code evicts frame 2, not frame 3 as claimed: the backward
2-distances at timestamp 7 are 7-3 = 4 for frame 1, 7-1 = 6 for frame 2
and 7-2 = 5 for frame 3, so frame 2 has the largest distance. -/
theorem lruTieTrace_not_frame3 : (lruTieTrace.evict).1 ≠ some 3 := by decide

/-- Claim C7 amended: the same trace makes Evict return frame 2, the
frame whose second most recent access (timestamp 1) is oldest. -/
theorem lruTieTrace_evicts_frame2 : (lruTieTrace.evict).1 = some 2 := by decide

/-- The claim C8 failing trace: track frame 1, mark it evictable, then
Remove it. -/
def lruRemoveTrace : LRUKReplacer :=
  (((LRUKReplacer.init 3 2).recordAccess 1).setEvictable 1 true).remove 1

/-- Claim C8: LRUKReplacer::Remove erases the frame metadata but
decrements current_timestamp_ instead of curr_size_, so after removing a
tracked evictable frame Size() still reports 1 although no evictable
frame is tracked any more.  The code contradicts its own comment on
Size() (evictable frame count) and the SetEvictable/Evict accounting. -/
theorem lruRemove_size_bug :
    lruRemoveTrace.size = 1 ∧ countEvictable lruRemoveTrace.nodeStore = 0 ∧
      lruRemoveTrace.nodeStore = [] := by decide

/-! ## Lock manager (src/concurrency/lock_manager.cpp)

Lock modes, the compatibility matrix, the queue scan of GetLockRequest,
the wait-for graph, HasCycle, RunCycleDetection and BuildGraph.  std::set
of txn ids is a sorted duplicate-free list (iteration in ascending order,
begin() the minimum), std::map is an association list whose key order is
the list order. -/

inductive LockMode where
  | intentionShared
  | intentionExclusive
  | shared
  | sharedIntentionExclusive
  | exclusive
  deriving Repr, DecidableEq, Fintype

/-- LockManager::AreLocksCompatible, embedded from the switch in the cpp. -/
def areLocksCompatible (l1 l2 : LockMode) : Bool :=
  match l1 with
  | .intentionShared =>
    decide (l2 = LockMode.intentionShared ∨ l2 = LockMode.intentionExclusive ∨
      l2 = LockMode.shared ∨ l2 = LockMode.sharedIntentionExclusive)
  | .shared =>
    decide (l2 = LockMode.shared ∨ l2 = LockMode.intentionShared)
  | .sharedIntentionExclusive =>
    decide (l2 = LockMode.intentionShared)
  | .intentionExclusive =>
    decide (l2 = LockMode.intentionExclusive ∨ l2 = LockMode.intentionShared)
  | .exclusive => false

/-- The standard multi-granularity compatibility matrix as the claim
states it: IS is compatible with IS/IX/S/SIX; IX with IS/IX; S with IS/S;
SIX with IS only; X with nothing. -/
def specCompatible (held req : LockMode) : Bool :=
  match held, req with
  | .intentionShared, .intentionShared => true
  | .intentionShared, .intentionExclusive => true
  | .intentionShared, .shared => true
  | .intentionShared, .sharedIntentionExclusive => true
  | .intentionExclusive, .intentionShared => true
  | .intentionExclusive, .intentionExclusive => true
  | .shared, .intentionShared => true
  | .shared, .shared => true
  | .sharedIntentionExclusive, .intentionShared => true
  | _, _ => false

structure LockRequest where
  txnId : Nat
  lockMode : LockMode
  granted : Bool
  deriving Repr, DecidableEq

/-- LockManager::GetLockRequest: walk the queue looking for this txn's own
request while computing is_compatible; a request of another txn that is
incompatible with the asked mode makes the attempt incompatible when no
own request was seen yet or when that other request is granted; the walk
stops early once compatibility failed after the own request was found. -/
def getLockRequestScan (queue : List LockRequest) (mode : LockMode) (txnId : Nat)
    (found : Option LockRequest) (compat : Bool) : Option LockRequest × Bool :=
  match queue with
  | [] => (found, compat)
  | lq :: rest =>
    if lq.txnId = txnId then getLockRequestScan rest mode txnId (some lq) compat
    else
      let compat2 :=
        if !areLocksCompatible lq.lockMode mode && (found.isNone || lq.granted) then false
        else compat
      if !compat2 && found.isSome then (found, compat2)
      else getLockRequestScan rest mode txnId found compat2

/-- The decision LockTable makes for a brand-new (non-upgrading) request:
GetLockRequest runs on the existing queue, returns no own request, and
the caller waits on the condition variable iff is_compatible came back
false. -/
def newRequestGrantedNow (queue : List LockRequest) (mode : LockMode) (txnId : Nat) :
    Bool :=
  (getLockRequestScan queue mode txnId none true).2

/-- Claim C3: with another transaction holding a granted request in mode
held, a fresh non-upgrading request in mode req is granted without waiting
iff the standard multi-granularity matrix marks the pair compatible, and
AreLocksCompatible itself coincides with that matrix on all 25 pairs. -/
theorem lockCompat_matrix :
    ∀ held req : LockMode,
      newRequestGrantedNow [⟨2, held, true⟩] req 1 = specCompatible held req ∧
      areLocksCompatible held req = specCompatible held req := by decide

/-! ### Wait-for graph, HasCycle and RunCycleDetection -/

/-- std::set insertion into a sorted duplicate-free list of txn ids. -/
def sortedInsert (x : Nat) (s : List Nat) : List Nat :=
  match s with
  | [] => [x]
  | y :: rest =>
    if x < y then x :: y :: rest
    else if x = y then y :: rest
    else y :: sortedInsert x rest

/-- Reading waits_for_[t]: the neighbour set of t, empty when absent (the
operator[] default; the empty sets it creates are never read again inside
HasCycle, whose worklist was captured up front). -/
def mapGetD (g : List (Nat × List Nat)) (t : Nat) : List Nat :=
  match g with
  | [] => []
  | (k, v) :: rest => if k = t then v else mapGetD rest t

/-- The inner neighbour loop of LockManager::HasCycle: neighbours are
visited in ascending order; an unvisited neighbour joins the worklist, the
first already-visited neighbour stops the search reporting a cycle. -/
def hasCycleScanNbrs (visited : List Nat) : List Nat → List Nat → List Nat × Bool
  | [], d => (d, false)
  | t :: rest, d =>
    if visited.contains t then (d, true)
    else hasCycleScanNbrs visited rest (sortedInsert t d)

/-- The outer worklist loop of LockManager::HasCycle: pop the smallest txn
id from the std::set d, scan its neighbours, then mark it visited. -/
def hasCycleLoop (g : List (Nat × List Nat)) :
    Nat → List Nat → List Nat → Bool × Option Nat
  | 0, _, _ => (false, none)
  | fuel + 1, d, visited =>
    match d with
    | [] => (false, none)
    | cur :: drest =>
      let scanned := hasCycleScanNbrs visited (mapGetD g cur) drest
      if scanned.2 then (true, some cur)
      else hasCycleLoop g fuel scanned.1 (sortedInsert cur visited)

/-- LockManager::HasCycle: empty graph reports no cycle; otherwise the
worklist starts from all keys of waits_for_ and the loop runs to
completion (the fuel is an upper bound on the number of iterations). -/
def hasCycle (g : List (Nat × List Nat)) : Bool × Option Nat :=
  if g.isEmpty then (false, none)
  else
    let d := g.foldl (fun acc p => sortedInsert p.1 acc) []
    hasCycleLoop g (2 * (g.length + (g.map (fun p => p.2.length)).sum) + 2) d []

/-- The while loop of LockManager::RunCycleDetection: abort the reported
victim, erase its key from the graph, repeat until no cycle is reported.
Returns the final graph and the aborted txns in order. -/
def runDetectionLoop (g : List (Nat × List Nat)) :
    Nat → List Nat → List (Nat × List Nat) × List Nat
  | 0, acc => (g, acc)
  | fuel + 1, acc =>
    match hasCycle g with
    | (false, _) => (g, acc)
    | (true, some v) => runDetectionLoop (g.filter (fun p => p.1 ≠ v)) fuel (acc ++ [v])
    | (true, none) => (g, acc)

/-- Nodes of a wait-for graph: keys and all edge targets. -/
def graphNodes (g : List (Nat × List Nat)) : List Nat :=
  g.foldl (fun acc p => sortedInsert p.1 (p.2.foldl (fun a t => sortedInsert t a) acc)) []

/-- One breadth step of spec-side reachability. -/
def reachStep (g : List (Nat × List Nat)) (s : List Nat) : List Nat :=
  s.foldl (fun acc t => (mapGetD g t).foldl (fun a u => sortedInsert u a) acc) s

/-- Spec-side cycle existence: some node reaches itself along edges. -/
def specHasCycleB (g : List (Nat × List Nat)) : Bool :=
  (graphNodes g).any fun x =>
    (Nat.iterate (reachStep g) (graphNodes g).length (mapGetD g x)).contains x

/-- The acyclic wait-for graph with edges 1 -> 2 and 3 -> 2 on which
HasCycle misfires. -/
def c4Graph : List (Nat × List Nat) := [(1, [2]), (3, [2])]

/-- Claim C4: the worklist search of HasCycle reports a cycle whenever an
edge reaches an already-visited node, which also happens in acyclic graphs
with converging edges.  On the acyclic graph 1 -> 2, 3 -> 2 it reports a
cycle with victim 3, and RunCycleDetection aborts transaction 3, while the
claim demands that no cycle be reported and nobody aborted. -/
theorem hasCycle_false_positive :
    specHasCycleB c4Graph = false ∧ hasCycle c4Graph = (true, some 3) ∧
      (runDetectionLoop c4Graph 5 []).2 = [3] := by decide

/-! ### BuildGraph (the wait-for graph rebuild) -/

inductive TxnState where
  | growing
  | shrinking
  | committed
  | aborted
  deriving Repr, DecidableEq

/-- txn_manager_->GetTransaction: association from txn id to state; none
models an unknown transaction (nullptr). -/
def lookupTxn (txns : List (Nat × TxnState)) (t : Nat) : Option TxnState :=
  match txns with
  | [] => none
  | (k, s) :: rest => if k = t then some s else lookupTxn rest t

/-- A request survives the two continue guards of BuildGraph: the txn is
known and not ABORTED. -/
def txnLive (txns : List (Nat × TxnState)) (t : Nat) : Bool :=
  match lookupTxn txns t with
  | none => false
  | some .aborted => false
  | some _ => true

/-- waits_for_[t] = v, the std::map assignment (insert or overwrite,
sorted by key). -/
def mapSet (g : List (Nat × List Nat)) (t : Nat) (v : List Nat) :
    List (Nat × List Nat) :=
  match g with
  | [] => [(t, v)]
  | (k, w) :: rest =>
    if t < k then (t, v) :: (k, w) :: rest
    else if t = k then (t, v) :: rest
    else (k, w) :: mapSet rest t v

/-- Inserting every element of ws into waits_for_[t] (the row loop). -/
def mapUnionAt (g : List (Nat × List Nat)) (t : Nat) (ws : List Nat) :
    List (Nat × List Nat) :=
  mapSet g t (ws.foldl (fun acc x => sortedInsert x acc) (mapGetD g t))

/-- The per-queue loop of BuildGraph over a table lock queue: skip unknown
or aborted txns, assign the accumulated predecessor set to each
not-granted request, then add the request txn to the accumulator. -/
def buildGraphTableQueue (txns : List (Nat × TxnState)) :
    List LockRequest → List Nat → List (Nat × List Nat) → List (Nat × List Nat)
  | [], _, g => g
  | r :: rest, ws, g =>
    if txnLive txns r.txnId then
      let g2 := if r.granted then g else mapSet g r.txnId ws
      buildGraphTableQueue txns rest (sortedInsert r.txnId ws) g2
    else buildGraphTableQueue txns rest ws g

/-- The per-queue loop of BuildGraph over a row lock queue: identical to
the table loop except that the predecessor set is inserted into the
existing edge set instead of overwriting it. -/
def buildGraphRowQueue (txns : List (Nat × TxnState)) :
    List LockRequest → List Nat → List (Nat × List Nat) → List (Nat × List Nat)
  | [], _, g => g
  | r :: rest, ws, g =>
    if txnLive txns r.txnId then
      let g2 := if r.granted then g else mapUnionAt g r.txnId ws
      buildGraphRowQueue txns rest (sortedInsert r.txnId ws) g2
    else buildGraphRowQueue txns rest ws g

/-- LockManager::BuildGraph: clear the graph, then walk every table lock
queue and every row lock queue with a fresh predecessor accumulator per
queue. -/
def buildGraph (txns : List (Nat × TxnState))
    (tableMap : List (Nat × List LockRequest))
    (rowMap : List (Nat × List LockRequest)) : List (Nat × List Nat) :=
  let g := tableMap.foldl (fun g q => buildGraphTableQueue txns q.2 [] g) []
  rowMap.foldl (fun g q => buildGraphRowQueue txns q.2 [] g) g

/-- Transactions with one row queue: T1 holds S granted, T2 waits for S. -/
def c5Txns : List (Nat × TxnState) := [(1, .growing), (2, .growing)]

def c5RowMap : List (Nat × List LockRequest) :=
  [(0, [⟨1, .shared, true⟩, ⟨2, .shared, false⟩])]

/-- Claim C5 counterexample: the granted S lock of T1 is compatible with
the S request of T2, so the claim predicts no edge T2 -> T1, yet
BuildGraph records exactly that edge (it ignores compatibility). -/
theorem buildGraph_edge_despite_compatible :
    mapGetD (buildGraph c5Txns [] c5RowMap) 2 = [1] ∧
      areLocksCompatible LockMode.shared LockMode.shared = true ∧
      specCompatible LockMode.shared LockMode.shared = true := by decide

/-! ### Characterization of the edges BuildGraph actually produces -/

/-- i has a not-granted request in the queue and is itself live. -/
def isLiveWaiter (txns : List (Nat × TxnState)) (q : List LockRequest) (i : Nat) :
    Bool :=
  txnLive txns i && q.any fun r => decide (r.txnId = i) && !r.granted

/-- The live transactions whose requests precede the request of txn i in
the queue (every earlier surviving request joins the accumulator,
granted or not). -/
def livePredsBefore (txns : List (Nat × TxnState)) :
    List LockRequest → Nat → List Nat
  | [], _ => []
  | r :: rest, i =>
    if r.txnId = i then []
    else if txnLive txns r.txnId then r.txnId :: livePredsBefore txns rest i
    else livePredsBefore txns rest i

/-- The last table queue, in map order, in which txn i is a live waiter;
later queues overwrite the edge sets written by earlier ones. -/
def lastWaitQueue (txns : List (Nat × TxnState)) :
    List (List LockRequest) → Nat → Option (List LockRequest)
  | [], _ => none
  | q :: rest, i =>
    match lastWaitQueue txns rest i with
    | some q2 => some q2
    | none => if isLiveWaiter txns q i then some q else none

theorem mem_sortedInsert (x a : Nat) (s : List Nat) :
    a ∈ sortedInsert x s ↔ a = x ∨ a ∈ s := by
  induction s with
  | nil => simp [sortedInsert]
  | cons y rest ih =>
    unfold sortedInsert
    by_cases h1 : x < y
    · simp [h1, List.mem_cons]
    · by_cases h2 : x = y
      · subst h2
        simp [h1, List.mem_cons]
      · simp [h1, h2, List.mem_cons, ih]
        tauto

theorem mem_foldl_sortedInsert (ws init : List Nat) (a : Nat) :
    a ∈ ws.foldl (fun acc x => sortedInsert x acc) init ↔ a ∈ init ∨ a ∈ ws := by
  induction ws generalizing init with
  | nil => simp
  | cons x rest ih =>
    simp only [List.foldl_cons, ih, mem_sortedInsert, List.mem_cons]
    tauto

theorem mapGetD_mapSet_self (g : List (Nat × List Nat)) (t : Nat) (v : List Nat) :
    mapGetD (mapSet g t v) t = v := by
  induction g with
  | nil => simp [mapSet, mapGetD]
  | cons p rest ih =>
    obtain ⟨k, w⟩ := p
    unfold mapSet
    by_cases h1 : t < k
    · simp [h1, mapGetD]
    · by_cases h2 : t = k
      · simp [h1, h2, mapGetD]
      · have hkt : ¬(k = t) := fun h => h2 h.symm
        simp [h1, h2, mapGetD, hkt, ih]

theorem mapGetD_mapSet_other (g : List (Nat × List Nat)) (t u : Nat)
    (v : List Nat) (h : t ≠ u) : mapGetD (mapSet g t v) u = mapGetD g u := by
  induction g with
  | nil => simp [mapSet, mapGetD, h]
  | cons p rest ih =>
    obtain ⟨k, w⟩ := p
    unfold mapSet
    by_cases h1 : t < k
    · simp [h1, mapGetD, h]
    · by_cases h2 : t = k
      · subst h2
        have : ¬(t = u) := h
        simp [h1, mapGetD, this]
      · by_cases h3 : k = u
        · subst h3
          simp [h1, h2, mapGetD]
        · simp [h1, h2, mapGetD, h3, ih]

theorem mem_mapGetD_mapUnionAt_self (g : List (Nat × List Nat)) (t : Nat)
    (ws : List Nat) (a : Nat) :
    a ∈ mapGetD (mapUnionAt g t ws) t ↔ a ∈ mapGetD g t ∨ a ∈ ws := by
  unfold mapUnionAt
  rw [mapGetD_mapSet_self, mem_foldl_sortedInsert]

theorem mapGetD_mapUnionAt_other (g : List (Nat × List Nat)) (t u : Nat)
    (ws : List Nat) (h : t ≠ u) :
    mapGetD (mapUnionAt g t ws) u = mapGetD g u := by
  unfold mapUnionAt
  exact mapGetD_mapSet_other _ _ _ _ h

theorem isLiveWaiter_cons (txns : List (Nat × TxnState)) (r : LockRequest)
    (rest : List LockRequest) (i : Nat) :
    isLiveWaiter txns (r :: rest) i =
      (txnLive txns i && ((decide (r.txnId = i) && !r.granted) ||
        rest.any fun s => decide (s.txnId = i) && !s.granted)) := by
  simp [isLiveWaiter, List.any_cons]

/-- No request of txn i in the queue means i is not a live waiter there. -/
theorem isLiveWaiter_of_not_mem (txns : List (Nat × TxnState))
    (q : List LockRequest) (i : Nat) (h : ∀ r ∈ q, r.txnId ≠ i) :
    isLiveWaiter txns q i = false := by
  unfold isLiveWaiter
  have : (q.any fun r => decide (r.txnId = i) && !r.granted) = false := by
    rw [List.any_eq_false]
    intro r hr
    simp [h r hr]
  simp [this]

/-- Unfolding step for a live request at the head of a table queue. -/
theorem buildGraphTableQueue_cons_live (txns : List (Nat × TxnState))
    (r : LockRequest) (rest : List LockRequest) (ws : List Nat)
    (g : List (Nat × List Nat)) (h : txnLive txns r.txnId = true) :
    buildGraphTableQueue txns (r :: rest) ws g =
      buildGraphTableQueue txns rest (sortedInsert r.txnId ws)
        (if r.granted then g else mapSet g r.txnId ws) := by
  simp only [buildGraphTableQueue, h, if_true]

/-- Unfolding step for a skipped request at the head of a table queue. -/
theorem buildGraphTableQueue_cons_dead (txns : List (Nat × TxnState))
    (r : LockRequest) (rest : List LockRequest) (ws : List Nat)
    (g : List (Nat × List Nat)) (h : txnLive txns r.txnId = false) :
    buildGraphTableQueue txns (r :: rest) ws g = buildGraphTableQueue txns rest ws g := by
  simp only [buildGraphTableQueue, h, Bool.false_eq_true, if_false]

/-- Membership characterization of one table-queue pass of BuildGraph. -/
theorem buildGraphTableQueue_spec (txns : List (Nat × TxnState))
    (q : List LockRequest) (hnd : (q.map LockRequest.txnId).Nodup)
    (ws : List Nat) (g : List (Nat × List Nat)) (i j : Nat) :
    (isLiveWaiter txns q i = true →
      (j ∈ mapGetD (buildGraphTableQueue txns q ws g) i ↔
        j ∈ ws ∨ j ∈ livePredsBefore txns q i)) ∧
    (isLiveWaiter txns q i = false →
      mapGetD (buildGraphTableQueue txns q ws g) i = mapGetD g i) := by
  induction q generalizing ws g with
  | nil =>
    refine ⟨fun h => ?_, fun _ => rfl⟩
    simp [isLiveWaiter] at h
  | cons r rest ih =>
    simp only [List.map_cons, List.nodup_cons] at hnd
    obtain ⟨hni, hnrest⟩ := hnd
    by_cases hlive : txnLive txns r.txnId = true
    · rw [buildGraphTableQueue_cons_live txns r rest ws g hlive]
      by_cases hri : r.txnId = i
      · subst hri
        have hrest0 : ∀ s ∈ rest, s.txnId ≠ r.txnId := by
          intro s hs heq
          exact hni (heq ▸ List.mem_map_of_mem LockRequest.txnId hs)
        have hrestw : isLiveWaiter txns rest r.txnId = false :=
          isLiveWaiter_of_not_mem txns rest r.txnId hrest0
        have hany : (rest.any fun s => decide (s.txnId = r.txnId) && !s.granted) = false := by
          rw [List.any_eq_false]
          intro s hs
          simp [hrest0 s hs]
        have hlwc : isLiveWaiter txns (r :: rest) r.txnId = !r.granted := by
          rw [isLiveWaiter_cons, hany]
          simp [hlive]
        by_cases hg : r.granted = true
        · rw [if_pos hg]
          refine ⟨fun h => ?_, fun _ => ?_⟩
          · rw [hlwc, hg] at h
            simp at h
          · exact (ih hnrest (sortedInsert r.txnId ws) g).2 hrestw
        · rw [if_neg hg]
          refine ⟨fun _ => ?_, fun h => ?_⟩
          · rw [(ih hnrest (sortedInsert r.txnId ws) (mapSet g r.txnId ws)).2 hrestw]
            rw [mapGetD_mapSet_self]
            simp [livePredsBefore]
          · rw [hlwc] at h
            simp [Bool.not_eq_true] at hg
            rw [hg] at h
            simp at h
      · have hlpb : livePredsBefore txns (r :: rest) i =
            r.txnId :: livePredsBefore txns rest i := by
          simp [livePredsBefore, hri, hlive]
        have hlw : isLiveWaiter txns (r :: rest) i = isLiveWaiter txns rest i := by
          simp [isLiveWaiter, List.any_cons, hri]
        by_cases hg : r.granted = true
        · rw [if_pos hg]
          refine ⟨fun h => ?_, fun h => ?_⟩
          · rw [hlw] at h
            rw [((ih hnrest (sortedInsert r.txnId ws) g).1 h), hlpb]
            simp only [mem_sortedInsert, List.mem_cons]
            tauto
          · rw [hlw] at h
            exact (ih hnrest (sortedInsert r.txnId ws) g).2 h
        · rw [if_neg hg]
          refine ⟨fun h => ?_, fun h => ?_⟩
          · rw [hlw] at h
            rw [((ih hnrest (sortedInsert r.txnId ws) (mapSet g r.txnId ws)).1 h), hlpb]
            simp only [mem_sortedInsert, List.mem_cons]
            tauto
          · rw [hlw] at h
            rw [(ih hnrest (sortedInsert r.txnId ws) (mapSet g r.txnId ws)).2 h]
            exact mapGetD_mapSet_other g r.txnId i ws hri
    · simp only [Bool.not_eq_true] at hlive
      rw [buildGraphTableQueue_cons_dead txns r rest ws g hlive]
      by_cases hri : r.txnId = i
      · subst hri
        have hlwf : ∀ q2 : List LockRequest, isLiveWaiter txns q2 r.txnId = false := by
          intro q2
          simp [isLiveWaiter, hlive]
        refine ⟨fun h => ?_, fun _ => ?_⟩
        · rw [hlwf (r :: rest)] at h
          exact absurd h (by simp)
        · exact (ih hnrest ws g).2 (hlwf rest)
      · have hlpb : livePredsBefore txns (r :: rest) i = livePredsBefore txns rest i := by
          simp [livePredsBefore, hri, hlive]
        have hlw : isLiveWaiter txns (r :: rest) i = isLiveWaiter txns rest i := by
          simp [isLiveWaiter, List.any_cons, hri]
        rw [hlw, hlpb]
        exact ih hnrest ws g

/-- Unfolding step for a live request at the head of a row queue. -/
theorem buildGraphRowQueue_cons_live (txns : List (Nat × TxnState))
    (r : LockRequest) (rest : List LockRequest) (ws : List Nat)
    (g : List (Nat × List Nat)) (h : txnLive txns r.txnId = true) :
    buildGraphRowQueue txns (r :: rest) ws g =
      buildGraphRowQueue txns rest (sortedInsert r.txnId ws)
        (if r.granted then g else mapUnionAt g r.txnId ws) := by
  simp only [buildGraphRowQueue, h, if_true]

/-- Unfolding step for a skipped request at the head of a row queue. -/
theorem buildGraphRowQueue_cons_dead (txns : List (Nat × TxnState))
    (r : LockRequest) (rest : List LockRequest) (ws : List Nat)
    (g : List (Nat × List Nat)) (h : txnLive txns r.txnId = false) :
    buildGraphRowQueue txns (r :: rest) ws g = buildGraphRowQueue txns rest ws g := by
  simp only [buildGraphRowQueue, h, Bool.false_eq_true, if_false]

/-- Membership characterization of one row-queue pass of BuildGraph:
unlike the table pass it accumulates into the existing edge set. -/
theorem buildGraphRowQueue_spec (txns : List (Nat × TxnState))
    (q : List LockRequest) (hnd : (q.map LockRequest.txnId).Nodup)
    (ws : List Nat) (g : List (Nat × List Nat)) (i j : Nat) :
    (isLiveWaiter txns q i = true →
      (j ∈ mapGetD (buildGraphRowQueue txns q ws g) i ↔
        j ∈ mapGetD g i ∨ j ∈ ws ∨ j ∈ livePredsBefore txns q i)) ∧
    (isLiveWaiter txns q i = false →
      mapGetD (buildGraphRowQueue txns q ws g) i = mapGetD g i) := by
  induction q generalizing ws g with
  | nil =>
    refine ⟨fun h => ?_, fun _ => rfl⟩
    simp [isLiveWaiter] at h
  | cons r rest ih =>
    simp only [List.map_cons, List.nodup_cons] at hnd
    obtain ⟨hni, hnrest⟩ := hnd
    by_cases hlive : txnLive txns r.txnId = true
    · rw [buildGraphRowQueue_cons_live txns r rest ws g hlive]
      by_cases hri : r.txnId = i
      · subst hri
        have hrest0 : ∀ s ∈ rest, s.txnId ≠ r.txnId := by
          intro s hs heq
          exact hni (heq ▸ List.mem_map_of_mem LockRequest.txnId hs)
        have hrestw : isLiveWaiter txns rest r.txnId = false :=
          isLiveWaiter_of_not_mem txns rest r.txnId hrest0
        have hany : (rest.any fun s => decide (s.txnId = r.txnId) && !s.granted) = false := by
          rw [List.any_eq_false]
          intro s hs
          simp [hrest0 s hs]
        have hlwc : isLiveWaiter txns (r :: rest) r.txnId = !r.granted := by
          rw [isLiveWaiter_cons, hany]
          simp [hlive]
        by_cases hg : r.granted = true
        · rw [if_pos hg]
          refine ⟨fun h => ?_, fun _ => ?_⟩
          · rw [hlwc, hg] at h
            simp at h
          · exact (ih hnrest (sortedInsert r.txnId ws) g).2 hrestw
        · rw [if_neg hg]
          refine ⟨fun _ => ?_, fun h => ?_⟩
          · rw [(ih hnrest (sortedInsert r.txnId ws) (mapUnionAt g r.txnId ws)).2 hrestw]
            rw [mem_mapGetD_mapUnionAt_self]
            simp [livePredsBefore]
          · rw [hlwc] at h
            simp [Bool.not_eq_true] at hg
            rw [hg] at h
            simp at h
      · have hlpb : livePredsBefore txns (r :: rest) i =
            r.txnId :: livePredsBefore txns rest i := by
          simp [livePredsBefore, hri, hlive]
        have hlw : isLiveWaiter txns (r :: rest) i = isLiveWaiter txns rest i := by
          simp [isLiveWaiter, List.any_cons, hri]
        by_cases hg : r.granted = true
        · rw [if_pos hg]
          refine ⟨fun h => ?_, fun h => ?_⟩
          · rw [hlw] at h
            rw [((ih hnrest (sortedInsert r.txnId ws) g).1 h), hlpb]
            simp only [mem_sortedInsert, List.mem_cons]
            tauto
          · rw [hlw] at h
            exact (ih hnrest (sortedInsert r.txnId ws) g).2 h
        · rw [if_neg hg]
          refine ⟨fun h => ?_, fun h => ?_⟩
          · rw [hlw] at h
            rw [((ih hnrest (sortedInsert r.txnId ws) (mapUnionAt g r.txnId ws)).1 h), hlpb]
            rw [mapGetD_mapUnionAt_other g r.txnId i ws hri]
            simp only [mem_sortedInsert, List.mem_cons]
            tauto
          · rw [hlw] at h
            rw [(ih hnrest (sortedInsert r.txnId ws) (mapUnionAt g r.txnId ws)).2 h]
            exact mapGetD_mapUnionAt_other g r.txnId i ws hri
    · simp only [Bool.not_eq_true] at hlive
      rw [buildGraphRowQueue_cons_dead txns r rest ws g hlive]
      by_cases hri : r.txnId = i
      · subst hri
        have hlwf : ∀ q2 : List LockRequest, isLiveWaiter txns q2 r.txnId = false := by
          intro q2
          simp [isLiveWaiter, hlive]
        refine ⟨fun h => ?_, fun _ => ?_⟩
        · rw [hlwf (r :: rest)] at h
          exact absurd h (by simp)
        · exact (ih hnrest ws g).2 (hlwf rest)
      · have hlpb : livePredsBefore txns (r :: rest) i = livePredsBefore txns rest i := by
          simp [livePredsBefore, hri, hlive]
        have hlw : isLiveWaiter txns (r :: rest) i = isLiveWaiter txns rest i := by
          simp [isLiveWaiter, List.any_cons, hri]
        rw [hlw, hlpb]
        exact ih hnrest ws g

/-- Folding all table queues: only the last queue in which i is a live
waiter determines its edge set (later assignments overwrite). -/
theorem tablesFold_spec (txns : List (Nat × TxnState))
    (qs : List (List LockRequest))
    (hnd : ∀ q ∈ qs, (q.map LockRequest.txnId).Nodup)
    (g : List (Nat × List Nat)) (i j : Nat) :
    j ∈ mapGetD (qs.foldl (fun g2 q => buildGraphTableQueue txns q [] g2) g) i ↔
      (∃ q, lastWaitQueue txns qs i = some q ∧ j ∈ livePredsBefore txns q i) ∨
      (lastWaitQueue txns qs i = none ∧ j ∈ mapGetD g i) := by
  induction qs generalizing g with
  | nil =>
    simp [lastWaitQueue]
  | cons q rest ih =>
    simp only [List.foldl_cons]
    rw [ih (fun q2 hq2 => hnd q2 (List.mem_cons_of_mem _ hq2))]
    simp only [lastWaitQueue]
    cases hlast : lastWaitQueue txns rest i with
    | some q2 =>
      simp only [hlast]
      constructor
      · rintro (⟨q3, hq3, hj⟩ | ⟨h, _⟩)
        · rw [Option.some_inj] at hq3
          exact Or.inl ⟨q3, by rw [Option.some_inj]; exact hq3, hj⟩
        · exact absurd h (by simp)
      · rintro (⟨q3, hq3, hj⟩ | ⟨h, _⟩)
        · rw [Option.some_inj] at hq3
          exact Or.inl ⟨q3, by rw [Option.some_inj]; exact hq3, hj⟩
        · exact absurd h (by simp)
    | none =>
      simp only [hlast]
      by_cases hw : isLiveWaiter txns q i = true
      · simp only [hw, if_true]
        have := (buildGraphTableQueue_spec txns q (hnd q (List.mem_cons_self _ _)) [] g i j).1 hw
        rw [this]
        simp
      · simp only [hw]
        rw [if_neg (by simp [hw])]
        have := (buildGraphTableQueue_spec txns q (hnd q (List.mem_cons_self _ _)) [] g i j).2
          (by simpa using hw)
        rw [this]
        simp

/-- Folding all row queues: contributions of the queues where i is a live
waiter accumulate on top of the incoming graph. -/
theorem rowsFold_spec (txns : List (Nat × TxnState))
    (qs : List (List LockRequest))
    (hnd : ∀ q ∈ qs, (q.map LockRequest.txnId).Nodup)
    (g : List (Nat × List Nat)) (i j : Nat) :
    j ∈ mapGetD (qs.foldl (fun g2 q => buildGraphRowQueue txns q [] g2) g) i ↔
      j ∈ mapGetD g i ∨
        ∃ q ∈ qs, isLiveWaiter txns q i = true ∧ j ∈ livePredsBefore txns q i := by
  induction qs generalizing g with
  | nil => simp
  | cons q rest ih =>
    simp only [List.foldl_cons]
    rw [ih (fun q2 hq2 => hnd q2 (List.mem_cons_of_mem _ hq2))]
    by_cases hw : isLiveWaiter txns q i = true
    · have := (buildGraphRowQueue_spec txns q (hnd q (List.mem_cons_self _ _)) [] g i j).1 hw
      rw [this]
      simp only [List.mem_cons, List.not_mem_nil]
      constructor
      · rintro ((hj | hj | hj) | ⟨q2, hq2, hw2, hj⟩)
        · exact Or.inl hj
        · exact hj.elim
        · exact Or.inr ⟨q, Or.inl rfl, hw, hj⟩
        · exact Or.inr ⟨q2, Or.inr hq2, hw2, hj⟩
      · rintro (hj | ⟨q2, hq2 | hq2, hw2, hj⟩)
        · exact Or.inl (Or.inl hj)
        · exact Or.inl (Or.inr (Or.inr (hq2 ▸ hj)))
        · exact Or.inr ⟨q2, hq2, hw2, hj⟩
    · have := (buildGraphRowQueue_spec txns q (hnd q (List.mem_cons_self _ _)) [] g i j).2
        (by simpa using hw)
      rw [this]
      simp only [List.mem_cons]
      constructor
      · rintro (hj | ⟨q2, hq2, hw2, hj⟩)
        · exact Or.inl hj
        · exact Or.inr ⟨q2, Or.inr hq2, hw2, hj⟩
      · rintro (hj | ⟨q2, hq2 | hq2, hw2, hj⟩)
        · exact Or.inl hj
        · exact absurd (hq2 ▸ hw2) (by simpa using hw)
        · exact Or.inr ⟨q2, hq2, hw2, hj⟩

/-- Spec-side description of the edges BuildGraph really produces for the
pair (i, j). -/
def BuildGraphEdgeSpec (txns : List (Nat × TxnState))
    (tableMap rowMap : List (Nat × List LockRequest)) (i j : Nat) : Prop :=
  (∃ q, lastWaitQueue txns (tableMap.map Prod.snd) i = some q ∧
    j ∈ livePredsBefore txns q i) ∨
  (∃ p ∈ rowMap, isLiveWaiter txns p.2 i = true ∧ j ∈ livePredsBefore txns p.2 i)

/-- Claim C5 amended: after BuildGraph the wait-for graph has an edge
i -> j iff i is live and has a not-granted request either (a) in some row
queue where a live transaction j has a request strictly earlier (granted
or not, compatibility never consulted), or (b) in the last table queue, in
map order, in which i waits, with j a live transaction strictly earlier in
that queue (assignments from earlier table queues are overwritten).  The
hypothesis asks each queue to hold at most one request per transaction. -/
theorem buildGraph_edges (txns : List (Nat × TxnState))
    (tableMap rowMap : List (Nat × List LockRequest))
    (hT : ∀ p ∈ tableMap, (p.2.map LockRequest.txnId).Nodup)
    (hR : ∀ p ∈ rowMap, (p.2.map LockRequest.txnId).Nodup) (i j : Nat) :
    j ∈ mapGetD (buildGraph txns tableMap rowMap) i ↔
      BuildGraphEdgeSpec txns tableMap rowMap i j := by
  unfold BuildGraphEdgeSpec
  have h1 : buildGraph txns tableMap rowMap =
      (rowMap.map Prod.snd).foldl (fun g2 q => buildGraphRowQueue txns q [] g2)
        ((tableMap.map Prod.snd).foldl (fun g2 q => buildGraphTableQueue txns q [] g2) []) := by
    unfold buildGraph
    rw [List.foldl_map, List.foldl_map]
  rw [h1]
  rw [rowsFold_spec txns (rowMap.map Prod.snd)
    (fun q hq => by
      obtain ⟨p, hp, hpq⟩ := List.mem_map.1 hq
      exact hpq ▸ hR p hp) _ i j]
  rw [tablesFold_spec txns (tableMap.map Prod.snd)
    (fun q hq => by
      obtain ⟨p, hp, hpq⟩ := List.mem_map.1 hq
      exact hpq ▸ hT p hp) [] i j]
  simp only [mapGetD, List.not_mem_nil, and_false, or_false]
  constructor
  · rintro (h | ⟨q, hq, hw, hj⟩)
    · exact Or.inl h
    · obtain ⟨p, hp, hpq⟩ := List.mem_map.1 hq
      exact Or.inr ⟨p, hp, hpq ▸ hw, hpq ▸ hj⟩
  · rintro (h | ⟨p, hp, hw, hj⟩)
    · exact Or.inl h
    · exact Or.inr ⟨p.2, List.mem_map_of_mem Prod.snd hp, hw, hj⟩

/-- Concrete lock-table state for the witness: one table queue where txn 2
waits behind a granted X of txn 1, plus the row queue of the
counterexample. -/
def c5TableMap : List (Nat × List LockRequest) :=
  [(5, [⟨1, .exclusive, true⟩, ⟨2, .exclusive, false⟩])]

/-- Witness for the amended C5 theorem at a concrete state. -/
theorem buildGraph_edges_witness :
    (∀ p ∈ c5TableMap, ((p.2.map LockRequest.txnId).Nodup)) ∧
    (∀ p ∈ c5RowMap, ((p.2.map LockRequest.txnId).Nodup)) ∧
    (2 ∈ mapGetD (buildGraph c5Txns c5TableMap c5RowMap) 1 ↔
      BuildGraphEdgeSpec c5Txns c5TableMap c5RowMap 1 2) :=
  ⟨by decide, by decide,
    buildGraph_edges c5Txns c5TableMap c5RowMap (by decide) (by decide) 1 2⟩

/-! ## Buffer pool manager (src/buffer/buffer_pool_manager.cpp)

FetchPage over the pool metadata.  The frame array pages_ is a total
function from frame index to page metadata (page id, pin count, dirty
flag); disk reads and writes only move byte buffers, which are not part of
the metadata model.  The page table is an association list; the free list
takes from the back as the cpp does.  INVALID_PAGE_ID is -1. -/

def INVALID_PAGE_ID : Int := -1

structure BPPage where
  pageId : Int
  pinCount : Nat
  isDirty : Bool

structure BufferPoolManager where
  poolSize : Nat
  pages : Nat → BPPage
  replacer : LRUKReplacer
  freeList : List Nat
  pageTable : List (Int × Nat)
  nextPageId : Int

/-- The buffer pool constructor: empty frames, every frame in the free
list (emplace_back in index order), fresh replacer, page ids start at 0. -/
def BufferPoolManager.init (poolSize k : Nat) : BufferPoolManager :=
  ⟨poolSize, fun _ => ⟨INVALID_PAGE_ID, 0, false⟩, LRUKReplacer.init poolSize k,
    List.range poolSize, [], 0⟩

def ptFind (pt : List (Int × Nat)) (pid : Int) : Option Nat :=
  match pt with
  | [] => none
  | (k, f) :: rest => if k = pid then some f else ptFind rest pid

def ptSet (pt : List (Int × Nat)) (pid : Int) (f : Nat) : List (Int × Nat) :=
  match pt with
  | [] => [(pid, f)]
  | (k, g) :: rest => if k = pid then (k, f) :: rest else (k, g) :: ptSet rest pid f

def ptErase (pt : List (Int × Nat)) (pid : Int) : List (Int × Nat) :=
  pt.filter (fun p => p.1 ≠ pid)

def updFrame (pages : Nat → BPPage) (f : Nat) (p : BPPage) : Nat → BPPage :=
  fun g => if g = f then p else pages g

/-- The shared tail of FetchPage once a frame is chosen on a page-table
miss: install the mapping, clean up an evicted old page (erase its stale
mapping, flush, reset the pin count), set the page id, pin, mark
non-evictable and record the access. -/
def fetchPageInstall (b : BufferPoolManager) (pid : Int) (f : Nat)
    (isOldPage : Bool) : Option Nat × BufferPoolManager :=
  let pt1 := ptSet b.pageTable pid f
  let page := b.pages f
  let pt2 :=
    if isOldPage && (decide (page.pageId ≠ INVALID_PAGE_ID) && decide (page.pageId ≠ pid)) then
      ptErase pt1 page.pageId
    else pt1
  let page1 := if isOldPage then { page with isDirty := false, pinCount := 0 } else page
  (some f,
    { b with
      pageTable := pt2,
      pages := updFrame b.pages f { page1 with pageId := pid, pinCount := page1.pinCount + 1 },
      replacer := ((b.replacer.setEvictable f false).recordAccess f) })

/-- BufferPoolManager::FetchPage: reject page ids that were never
allocated; on a hit pin the resident frame; on a miss take a frame from
the back of the free list or evict one, read the page in and pin it. -/
def BufferPoolManager.fetchPage (b : BufferPoolManager) (pid : Int) :
    Option Nat × BufferPoolManager :=
  if b.nextPageId ≤ pid then (none, b)
  else
    match ptFind b.pageTable pid with
    | some f =>
      let page := b.pages f
      (some f,
        { b with
          pages := updFrame b.pages f
            { page with pageId := pid, pinCount := page.pinCount + 1 },
          replacer := ((b.replacer.setEvictable f false).recordAccess f) })
    | none =>
      if hfl : b.freeList = [] then
        match (b.replacer.evict).1 with
        | none => (none, b)
        | some f => fetchPageInstall { b with replacer := (b.replacer.evict).2 } pid f true
      else
        fetchPageInstall { b with freeList := b.freeList.dropLast } pid
          (b.freeList.getLast hfl) false

theorem ptFind_ptSet_self (pt : List (Int × Nat)) (pid : Int) (f : Nat) :
    ptFind (ptSet pt pid f) pid = some f := by
  induction pt with
  | nil => simp [ptSet, ptFind]
  | cons p rest ih =>
    obtain ⟨k, g⟩ := p
    unfold ptSet
    by_cases h : k = pid
    · simp [h, ptFind]
    · simp [h, ptFind, ih]

theorem ptFind_ptErase_other (pt : List (Int × Nat)) (pid old : Int)
    (h : old ≠ pid) : ptFind (ptErase pt old) pid = ptFind pt pid := by
  induction pt with
  | nil => rfl
  | cons p rest ih =>
    obtain ⟨k, g⟩ := p
    have hstep : ptErase ((k, g) :: rest) old =
        if k = old then ptErase rest old else (k, g) :: ptErase rest old := by
      unfold ptErase
      by_cases hk : k = old
      · simp [hk, List.filter_cons]
      · simp [hk, List.filter_cons]
    rw [hstep]
    by_cases hk : k = old
    · rw [if_pos hk, ih]
      have hcons : ptFind ((k, g) :: rest) pid =
          if k = pid then some g else ptFind rest pid := rfl
      rw [hcons, if_neg (fun hc => h (hk ▸ hc))]
    · rw [if_neg hk]
      by_cases hkp : k = pid
      · simp [ptFind, hkp]
      · simp [ptFind, hkp, ih]

/-- The installation tail always maps pid to the chosen frame and leaves
it pinned with the requested page id. -/
theorem fetchPageInstall_spec (b : BufferPoolManager) (pid : Int) (f : Nat)
    (old : Bool) :
    (fetchPageInstall b pid f old).1 = some f ∧
    ptFind (fetchPageInstall b pid f old).2.pageTable pid = some f ∧
    ((fetchPageInstall b pid f old).2.pages f).pageId = pid ∧
    1 ≤ ((fetchPageInstall b pid f old).2.pages f).pinCount := by
  simp only [fetchPageInstall]
  refine ⟨trivial, ?_, ?_, ?_⟩
  · by_cases hc : (old && (decide ((b.pages f).pageId ≠ INVALID_PAGE_ID) &&
        decide ((b.pages f).pageId ≠ pid))) = true
    · rw [if_pos hc]
      simp only [Bool.and_eq_true, decide_eq_true_eq] at hc
      rw [ptFind_ptErase_other _ _ _ hc.2.2]
      exact ptFind_ptSet_self b.pageTable pid f
    · rw [if_neg hc]
      exact ptFind_ptSet_self b.pageTable pid f
  · simp [updFrame]
  · simp [updFrame]

/-- FetchPage returns no page exactly when the page id was never
allocated (at or above next_page_id_) or it misses in the page table with
an empty free list and no evictable frame. -/
theorem fetchPage_none_iff (b : BufferPoolManager) (pid : Int)
    (hv : b.replacer.Valid) :
    (b.fetchPage pid).1 = none ↔
      b.nextPageId ≤ pid ∨
        (ptFind b.pageTable pid = none ∧ b.freeList = [] ∧
          ∀ p ∈ b.replacer.nodeStore, p.2.isEvictable = false) := by
  unfold BufferPoolManager.fetchPage
  by_cases hnp : b.nextPageId ≤ pid
  · simp [hnp]
  · simp only [hnp, if_false]
    cases hpt : ptFind b.pageTable pid with
    | some f => simp [hnp]
    | none =>
      by_cases hfl : b.freeList = []
      · rw [dif_pos hfl]
        cases hev : (b.replacer.evict).1 with
        | none =>
          rw [evict_none_iff b.replacer hv] at hev
          constructor
          · intro _
            exact Or.inr ⟨rfl, hfl, hev⟩
          · intro _
            rfl
        | some f =>
          have hne : ¬∀ p ∈ b.replacer.nodeStore, p.2.isEvictable = false := by
            intro hall
            rw [← evict_none_iff b.replacer hv] at hall
            rw [hev] at hall
            exact absurd hall (by simp)
          obtain ⟨h1, _, _, _⟩ := fetchPageInstall_spec
            { b with replacer := (b.replacer.evict).2 } pid f true
          rw [h1]
          constructor
          · intro hc
            exact absurd hc (by simp)
          · rintro (hc | ⟨_, _, hall⟩)
            · exact hc.elim
            · exact absurd hall hne
      · rw [dif_neg hfl]
        obtain ⟨h1, _, _, _⟩ := fetchPageInstall_spec
          { b with freeList := b.freeList.dropLast } pid (b.freeList.getLast hfl) false
        rw [h1]
        constructor
        · intro hc
          exact absurd hc (by simp)
        · rintro (hc | ⟨_, hc, _⟩)
          · exact hc.elim
          · exact absurd hc hfl

/-- A successful FetchPage installs the mapping from the page id to the
returned frame and leaves that frame holding the page, pinned. -/
theorem fetchPage_some_pins (b : BufferPoolManager) (pid : Int) (f : Nat)
    (h : (b.fetchPage pid).1 = some f) :
    ptFind (b.fetchPage pid).2.pageTable pid = some f ∧
    ((b.fetchPage pid).2.pages f).pageId = pid ∧
    1 ≤ ((b.fetchPage pid).2.pages f).pinCount := by
  unfold BufferPoolManager.fetchPage at h ⊢
  by_cases hnp : b.nextPageId ≤ pid
  · simp [hnp] at h
  · simp only [hnp, if_false] at h ⊢
    cases hpt : ptFind b.pageTable pid with
    | some f0 =>
      rw [hpt] at h
      simp only [Option.some_inj] at h
      subst h
      simp only [hpt]
      refine ⟨trivial, ?_, ?_⟩
      · simp [updFrame]
      · simp [updFrame]
    | none =>
      rw [hpt] at h
      simp only [hpt]
      by_cases hfl : b.freeList = []
      · rw [dif_pos hfl] at h ⊢
        cases hev : (b.replacer.evict).1 with
        | none =>
          rw [hev] at h
          exact absurd h (by simp)
        | some f0 =>
          rw [hev] at h
          obtain ⟨h1, h2, h3, h4⟩ := fetchPageInstall_spec
            { b with replacer := (b.replacer.evict).2 } pid f0 true
          rw [h1] at h
          simp only [Option.some_inj] at h
          subst h
          exact ⟨h2, h3, h4⟩
      · rw [dif_neg hfl] at h ⊢
        obtain ⟨h1, h2, h3, h4⟩ := fetchPageInstall_spec
          { b with freeList := b.freeList.dropLast } pid (b.freeList.getLast hfl) false
        rw [h1] at h
        simp only [Option.some_inj] at h
        subst h
        exact ⟨h2, h3, h4⟩

/-- Claim C9 counterexample: on a freshly constructed pool (one frame, all
frames free) FetchPage(0) fails although the pool is anything but
exhausted: page 0 simply has not been allocated yet (next_page_id_ is 0
and FetchPage rejects page_id >= next_page_id_). -/
theorem fetchPage_fresh_pool_fails :
    (((BufferPoolManager.init 1 2).fetchPage 0).1 = none) ∧
      (BufferPoolManager.init 1 2).freeList = [0] ∧
      ptFind (BufferPoolManager.init 1 2).pageTable 0 = none := by
  refine ⟨?_, rfl, rfl⟩
  unfold BufferPoolManager.fetchPage
  rw [if_pos (by simp [BufferPoolManager.init])]

/-- A concrete pool for the C9 witnesses: pool of one frame, page 0
allocated and resident, pinned. -/
def bpmWitness : BufferPoolManager :=
  { poolSize := 1
    pages := fun _ => ⟨0, 1, false⟩
    replacer := ⟨2, 1, [(0, ⟨0, [0], false⟩)], 1, 0⟩
    freeList := []
    pageTable := [(0, 0)]
    nextPageId := 1 }

theorem bpmWitness_valid : bpmWitness.replacer.Valid := by
  constructor
  · unfold bpmWitness SIZE_T_MAX
    norm_num
  · decide

/-- Claim C9 amended: FetchPage fails exactly when the page id was never
allocated (page_id at or above next_page_id_) or the page misses in the
page table with an empty free list and no evictable frame; every
successful fetch installs the mapping and returns a pinned frame holding
the page. -/
theorem fetchPage_characterization (b : BufferPoolManager) (pid : Int)
    (hv : b.replacer.Valid) :
    ((b.fetchPage pid).1 = none ↔
      b.nextPageId ≤ pid ∨
        (ptFind b.pageTable pid = none ∧ b.freeList = [] ∧
          ∀ p ∈ b.replacer.nodeStore, p.2.isEvictable = false)) ∧
    (∀ f, (b.fetchPage pid).1 = some f →
      ptFind (b.fetchPage pid).2.pageTable pid = some f ∧
      ((b.fetchPage pid).2.pages f).pageId = pid ∧
      1 ≤ ((b.fetchPage pid).2.pages f).pinCount) :=
  ⟨fetchPage_none_iff b pid hv, fun f h => fetchPage_some_pins b pid f h⟩

/-- Witness for the FetchPage characterization at a concrete state. -/
theorem fetchPage_characterization_witness :
    bpmWitness.replacer.Valid ∧
      (((bpmWitness.fetchPage 5).1 = none ↔
        bpmWitness.nextPageId ≤ 5 ∨
          (ptFind bpmWitness.pageTable 5 = none ∧ bpmWitness.freeList = [] ∧
            ∀ p ∈ bpmWitness.replacer.nodeStore, p.2.isEvictable = false)) ∧
      (∀ f, (bpmWitness.fetchPage 5).1 = some f →
        ptFind (bpmWitness.fetchPage 5).2.pageTable 5 = some f ∧
        ((bpmWitness.fetchPage 5).2.pages f).pageId = 5 ∧
        1 ≤ ((bpmWitness.fetchPage 5).2.pages f).pinCount)) :=
  ⟨bpmWitness_valid, fetchPage_characterization bpmWitness 5 bpmWitness_valid⟩

/-! ## B+tree (src/storage/index/b_plus_tree.cpp,
src/storage/page/b_plus_tree_internal_page.cpp,
src/storage/index/index_iterator.cpp)

Pages carry a fixed key/value array (total functions), a size, a max
size, a leaf flag and the next-leaf pointer; a leaf stores record values,
an internal node stores child page ids, both as Int.  Keys are positive
naturals; the zero-initialized sentinel KeyType is 0.  The page store is
an association list from page id to page; NewPageGuarded always succeeds
(pool exhaustion is out of scope for the tree-shape claims) and hands out
increasing page ids.  The leaf page methods (InsertAt, RemoveAt) are not
in src/ and are modelled from the spec as sorted-array insertion and
removal at an index, mirroring the internal-page implementations that are
in src/ but without the index <= 0 rejection (leaves insert at the
front).  GetMinSize is modelled from the spec: ceil(max/2). -/

structure BPage where
  isLeaf : Bool
  size : Nat
  maxSize : Nat
  nextId : Int
  keys : Nat → Nat
  vals : Nat → Int

/-- A zeroed page as produced by ResetMemory on a fresh frame. -/
def emptyPage : BPage := ⟨true, 0, 0, 0, fun _ => 0, fun _ => 0⟩

/-- GetMinSize, modelled from the spec: minimum occupancy ceil(max/2). -/
def BPage.minSize (p : BPage) : Nat := (p.maxSize + 1) / 2

/-- SetMappingAt: overwrite the key/value pair at one array index. -/
def BPage.setMapping (p : BPage) (i : Nat) (k : Nat) (v : Int) : BPage :=
  { p with
    keys := fun j => if j = i then k else p.keys j,
    vals := fun j => if j = i then v else p.vals j }

/-- InsertAt of b_plus_tree_internal_page.cpp: rejected for index 0,
otherwise shift the suffix up and write the pair; the leaf version is
the spec-modelled variant without the rejection. -/
def insertAtCore (p : BPage) (i : Nat) (k : Nat) (v : Int) : BPage :=
  { p with
    size := p.size + 1,
    keys := fun j =>
      if j < i then p.keys j
      else if j = i then k
      else if j ≤ p.size then p.keys (j - 1)
      else p.keys j,
    vals := fun j =>
      if j < i then p.vals j
      else if j = i then v
      else if j ≤ p.size then p.vals (j - 1)
      else p.vals j }

def internalInsertAt (p : BPage) (i : Nat) (k : Nat) (v : Int) : BPage :=
  if i = 0 then p else insertAtCore p i k v

def leafInsertAt (p : BPage) (i : Nat) (k : Nat) (v : Int) : BPage :=
  insertAtCore p i k v

/-- RemoveAt: shift the suffix down over the removed index (identical in
the internal page source and the spec-modelled leaf variant). -/
def removeAtCore (p : BPage) (i : Nat) : BPage :=
  { p with
    size := p.size - 1,
    keys := fun j => if i ≤ j ∧ j + 1 < p.size then p.keys (j + 1) else p.keys j,
    vals := fun j => if i ≤ j ∧ j + 1 < p.size then p.vals (j + 1) else p.vals j }

/-- ValueIndex of b_plus_tree_internal_page.cpp: index of the child page
id, or -1. -/
def BPage.valueIndex (p : BPage) (v : Int) : Int :=
  match (List.range p.size).find? (fun i => p.vals i = v) with
  | some i => (i : Int)
  | none => -1

/-- The whole tree state: page store, header root page id, page id
allocator and the two order parameters. -/
structure BPT where
  store : List (Int × BPage)
  rootId : Int
  nextPage : Int
  leafMax : Nat
  internalMax : Nat

def bptFind (store : List (Int × BPage)) (pid : Int) : Option BPage :=
  match store with
  | [] => none
  | (k, p) :: rest => if k = pid then some p else bptFind rest pid

def bptSet (store : List (Int × BPage)) (pid : Int) (p : BPage) :
    List (Int × BPage) :=
  match store with
  | [] => [(pid, p)]
  | (k, q) :: rest => if k = pid then (k, p) :: rest else (k, q) :: bptSet rest pid p

/-- Reading a page through a guard; reachable states always hit. -/
def BPT.page (t : BPT) (pid : Int) : BPage := (bptFind t.store pid).getD emptyPage

def BPT.setPage (t : BPT) (pid : Int) (p : BPage) : BPT :=
  { t with store := bptSet t.store pid p }

/-- NewPageGuarded: allocate a fresh zeroed page with the next id. -/
def BPT.alloc (t : BPT) : Int × BPT :=
  (t.nextPage,
    { t with store := bptSet t.store t.nextPage emptyPage, nextPage := t.nextPage + 1 })

/-- The crab path: captured root page id plus the deque of held write
guards, as page ids. -/
structure BContext where
  rootPageId : Int
  writeSet : List Int

/-- The leaf binary search shared verbatim by GetValue, Insert, Remove and
Begin(key) (the four loops in the cpp are textually identical up to the
action taken on an equal key): probe mid, return it on equality, move
left past mid on a larger key, move right below mid otherwise.  Returns
the hit index and the last probe.  The fuel exceeds the iteration count
of any terminating run. -/
def leafSearchLoop (keys : Nat → Nat) (key : Nat) :
    Nat → Int → Int → Int → Option Int × Int
  | 0, _, _, mid => (none, mid)
  | fuel + 1, left, right, mid =>
    if left ≤ right then
      let m := left + (right - left) / 2
      let pk := keys m.toNat
      if key ≥ pk then
        if key = pk then (some m, m)
        else leafSearchLoop keys key fuel (m + 1) right m
      else leafSearchLoop keys key fuel left (m - 1) m
    else (none, mid)

def leafSearch (keys : Nat → Nat) (size : Nat) (key : Nat) : Option Int × Int :=
  if 0 < size then leafSearchLoop keys key (size + 2) 0 ((size : Int) - 1) 0
  else (none, 0)

/-- The internal-node child search shared verbatim by GetValue, Insert,
Remove and Begin(key): binary search over indices [1, size), landing on
the child whose separator is the largest key at most the target. -/
def internalSearchLoop (keys : Nat → Nat) (key : Nat) :
    Nat → Int → Int → Int → Int
  | 0, _, _, mid => mid
  | fuel + 1, left, right, mid =>
    if left ≤ right then
      let m := left + (right - left) / 2
      let pk := keys m.toNat
      if key > pk then internalSearchLoop keys key fuel (m + 1) right m
      else internalSearchLoop keys key fuel left (m - 1) (m - 1)
    else mid

def internalSearch (keys : Nat → Nat) (size : Nat) (key : Nat) : Int :=
  internalSearchLoop keys key (size + 2) 1 ((size : Int) - 1) 1

/-- The parent-position search of the leaf branch of DoSplit. -/
def splitParentIdxLeafLoop (keys : Nat → Nat) (midKey : Nat) :
    Nat → Int → Int → Int → Int
  | 0, _, _, idx => idx
  | fuel + 1, left, right, idx =>
    if left ≤ right then
      let m := left + (right - left) / 2
      let k := keys m.toNat
      if k > midKey then splitParentIdxLeafLoop keys midKey fuel left (m - 1) m
      else splitParentIdxLeafLoop keys midKey fuel (m + 1) right m
    else idx

def splitParentIdxLeaf (keys : Nat → Nat) (parentSize : Nat) (midKey : Nat) : Int :=
  let idx := splitParentIdxLeafLoop keys midKey (parentSize + 2) 1 ((parentSize : Int) - 1) 1
  if keys idx.toNat < midKey then idx + 1 else idx

/-- The parent-position search of the internal branch of DoSplit; it
differs from the leaf branch by additionally moving the probe index one
left whenever the probed key is larger. -/
def splitParentIdxInternalLoop (keys : Nat → Nat) (midKey : Nat) :
    Nat → Int → Int → Int → Int
  | 0, _, _, idx => idx
  | fuel + 1, left, right, idx =>
    if left ≤ right then
      let m := left + (right - left) / 2
      let k := keys m.toNat
      if k > midKey then splitParentIdxInternalLoop keys midKey fuel left (m - 1) (m - 1)
      else splitParentIdxInternalLoop keys midKey fuel (m + 1) right m
    else idx

def splitParentIdxInternal (keys : Nat → Nat) (parentSize : Nat) (midKey : Nat) : Int :=
  let idx := splitParentIdxInternalLoop keys midKey (parentSize + 2) 1 ((parentSize : Int) - 1) 1
  if keys idx.toNat < midKey then idx + 1 else idx

/-- BPlusTree::DoSplit: pop the back guard; no-op below max size; split
the root in place (allocating both children) or split a non-root node to
the right and insert the separator into the parent, which is pushed back
onto the crab path. -/
def doSplit (t : BPT) (ctx : BContext) : BPT × BContext :=
  match ctx.writeSet.getLast? with
  | none => (t, ctx)
  | some pid =>
    let ws := ctx.writeSet.dropLast
    let page := t.page pid
    let size := page.size
    if size < page.maxSize then (t, { ctx with writeSet := ws })
    else if ctx.rootPageId = pid then
      if page.isLeaf then
        let mid := (size - 1) / 2
        let (leftId, t) := t.alloc
        let (rightId, t) := t.alloc
        let leftPage : BPage :=
          { isLeaf := true, size := mid + 1, maxSize := t.leafMax, nextId := rightId,
            keys := fun i => if i ≤ mid then page.keys i else 0,
            vals := fun i => if i ≤ mid then page.vals i else 0 }
        let rightPage : BPage :=
          { isLeaf := true, size := size - mid - 1, maxSize := t.leafMax, nextId := -1,
            keys := fun i => if i < size - mid - 1 then page.keys (i + mid + 1) else 0,
            vals := fun i => if i < size - mid - 1 then page.vals (i + mid + 1) else 0 }
        let midKey := page.keys mid
        let newRoot :=
          { ((page.setMapping 0 0 leftId).setMapping 1 midKey rightId) with
            isLeaf := false, maxSize := t.internalMax, size := 2 }
        let t := ((t.setPage leftId leftPage).setPage rightId rightPage).setPage pid newRoot
        (t, { ctx with writeSet := ws ++ [pid] })
      else
        let mid := size / 2
        let (leftId, t) := t.alloc
        let (rightId, t) := t.alloc
        let leftPage : BPage :=
          { isLeaf := false, size := mid, maxSize := t.internalMax, nextId := 0,
            keys := fun i => if i < mid then page.keys i else 0,
            vals := fun i => if i < mid then page.vals i else 0 }
        let rightPage : BPage :=
          { isLeaf := false, size := size - mid, maxSize := t.internalMax, nextId := 0,
            keys := fun i => if i = 0 then 0
              else if i < size - mid then page.keys (i + mid) else 0,
            vals := fun i => if i = 0 then page.vals mid
              else if i < size - mid then page.vals (i + mid) else 0 }
        let midKey := page.keys mid
        let newRoot :=
          { ((page.setMapping 0 0 leftId).setMapping 1 midKey rightId) with size := 2 }
        let t := ((t.setPage leftId leftPage).setPage rightId rightPage).setPage pid newRoot
        (t, { ctx with writeSet := ws ++ [pid] })
    else
      match ws.getLast? with
      | none => (t, { ctx with writeSet := ws })
      | some parentId =>
        let ws2 := ws.dropLast
        let parent := t.page parentId
        if parent.size < 2 then (t, { ctx with writeSet := ws2 })
        else if page.isLeaf then
          let mid := (size - 1) / 2
          let midKey := page.keys mid
          let (rightId, t) := t.alloc
          let rightPage : BPage :=
            { isLeaf := true, size := size - mid - 1, maxSize := t.leafMax,
              nextId := page.nextId,
              keys := fun i => if i < size - mid - 1 then page.keys (i + mid + 1) else 0,
              vals := fun i => if i < size - mid - 1 then page.vals (i + mid + 1) else 0 }
          let idx := splitParentIdxLeaf parent.keys parent.size midKey
          let parent2 := internalInsertAt parent idx.toNat midKey rightId
          let page2 := { page with nextId := rightId, size := mid + 1 }
          let t := ((t.setPage rightId rightPage).setPage pid page2).setPage parentId parent2
          (t, { ctx with writeSet := ws2 ++ [parentId] })
        else
          let mid := size / 2
          let midKey := page.keys mid
          let (rightId, t) := t.alloc
          let rightPage : BPage :=
            { isLeaf := false, size := size - mid, maxSize := t.internalMax, nextId := 0,
              keys := fun i => if i = 0 then 0
                else if i < size - mid then page.keys (i + mid) else 0,
              vals := fun i => if i = 0 then page.vals mid
                else if i < size - mid then page.vals (i + mid) else 0 }
          let idx := splitParentIdxInternal parent.keys parent.size midKey
          let parent2 := internalInsertAt parent idx.toNat midKey rightId
          let page2 := { page with size := mid }
          let t := ((t.setPage rightId rightPage).setPage pid page2).setPage parentId parent2
          (t, { ctx with writeSet := ws2 ++ [parentId] })

/-- The while loop of BPlusTree::DoMerge, walking the crab path upward.
Each iteration either redistributes from a sibling, collapses the two
remaining children into the root page in place, or merges with a sibling
and removes the parent separator, continuing with the parent on
underflow. -/
def doMergeLoop (rootPageId : Int) :
    Nat → BPT → Int → List Int → BPT
  | 0, t, _, _ => t
  | fuel + 1, t, pageId, ws =>
    let page := t.page pageId
    if (page.isLeaf || decide (page.size > 1)) && decide (page.size ≥ page.minSize) then t
    else
      match ws.getLast? with
      | none => t
      | some parentId =>
        let ws2 := ws.dropLast
        let parent := t.page parentId
        let parentSize := parent.size
        let index := parent.valueIndex pageId
        if index < 0 then t
        else
          let i := index.toNat
          if page.isLeaf then
            if 0 < index then
              let leftId := parent.vals (i - 1)
              let selfId := parent.vals i
              let left := t.page leftId
              let self := t.page selfId
              let leftSize := left.size
              let size := self.size
              if left.maxSize ≤ leftSize + size then
                let moveNum := self.minSize - size
                if moveNum = 0 then t
                else
                  let parent2 := { parent with
                    keys := fun j => if j = i then left.keys (leftSize - moveNum - 1)
                      else parent.keys j }
                  let self2 := { self with
                    size := size + moveNum,
                    keys := fun j => if j < moveNum then left.keys (j + leftSize - moveNum)
                      else if j < size + moveNum then self.keys (j - moveNum)
                      else self.keys j,
                    vals := fun j => if j < moveNum then left.vals (j + leftSize - moveNum)
                      else if j < size + moveNum then self.vals (j - moveNum)
                      else self.vals j }
                  let left2 := { left with size := leftSize - moveNum }
                  ((t.setPage parentId parent2).setPage selfId self2).setPage leftId left2
              else if parentSize < 3 ∧ rootPageId = parentId then
                let root2 : BPage :=
                  { isLeaf := true, size := leftSize + size, maxSize := left.maxSize,
                    nextId := -1,
                    keys := fun j => if j < leftSize then left.keys j
                      else if j < leftSize + size then self.keys (j - leftSize)
                      else parent.keys j,
                    vals := fun j => if j < leftSize then left.vals j
                      else if j < leftSize + size then self.vals (j - leftSize)
                      else parent.vals j }
                t.setPage parentId root2
              else
                let left2 := { left with
                  size := leftSize + size, nextId := self.nextId,
                  keys := fun j => if leftSize ≤ j ∧ j < leftSize + size then
                      self.keys (j - leftSize) else left.keys j,
                  vals := fun j => if leftSize ≤ j ∧ j < leftSize + size then
                      self.vals (j - leftSize) else left.vals j }
                let parent2 := removeAtCore parent i
                let t := (t.setPage leftId left2).setPage parentId parent2
                if 1 < parent2.size then t
                else doMergeLoop rootPageId fuel t parentId ws2
            else
              let rightId := parent.vals (i + 1)
              let right := t.page rightId
              let self := t.page pageId
              let rightSize := right.size
              let size := self.size
              if right.maxSize ≤ rightSize + size then
                let moveNum := self.minSize - size
                if moveNum = 0 then t
                else
                  let parent2 := { parent with
                    keys := fun j => if j = i + 1 then right.keys (moveNum - 1)
                      else parent.keys j }
                  let self2 := { self with
                    size := size + moveNum,
                    keys := fun j => if size ≤ j ∧ j < size + moveNum then
                        right.keys (j - size) else self.keys j,
                    vals := fun j => if size ≤ j ∧ j < size + moveNum then
                        right.vals (j - size) else self.vals j }
                  let right2 := { right with
                    size := rightSize - moveNum,
                    keys := fun j => if j < rightSize - moveNum then right.keys (j + moveNum)
                      else right.keys j,
                    vals := fun j => if j < rightSize - moveNum then right.vals (j + moveNum)
                      else right.vals j }
                  ((t.setPage parentId parent2).setPage pageId self2).setPage rightId right2
              else if parentSize < 3 ∧ rootPageId = parentId then
                let root2 : BPage :=
                  { isLeaf := true, size := size + rightSize, maxSize := self.maxSize,
                    nextId := -1,
                    keys := fun j => if j < size then self.keys j
                      else if j < size + rightSize then right.keys (j - size)
                      else parent.keys j,
                    vals := fun j => if j < size then self.vals j
                      else if j < size + rightSize then right.vals (j - size)
                      else parent.vals j }
                t.setPage parentId root2
              else
                let self2 := { self with
                  size := size + rightSize, nextId := right.nextId,
                  keys := fun j => if size ≤ j ∧ j < size + rightSize then
                      right.keys (j - size) else self.keys j,
                  vals := fun j => if size ≤ j ∧ j < size + rightSize then
                      right.vals (j - size) else self.vals j }
                let parent2 := removeAtCore parent (i + 1)
                let t := (t.setPage pageId self2).setPage parentId parent2
                if 1 < parent2.size then t
                else doMergeLoop rootPageId fuel t parentId ws2
          else
            if 0 < index then
              let leftId := parent.vals (i - 1)
              let left := t.page leftId
              let self := t.page pageId
              let leftSize := left.size
              let size := self.size
              if 2 < leftSize ∧ left.maxSize ≤ leftSize + size then
                let moveNum := if 2 < self.minSize then self.minSize else 2 - size
                if moveNum = 0 then t
                else
                  let parentKey := parent.keys i
                  let parent2 := { parent with
                    keys := fun j => if j = i then left.keys (leftSize - moveNum)
                      else parent.keys j }
                  let self2 := { self with
                    size := size + moveNum,
                    keys := fun j =>
                      if j = 0 then 0
                      else if j < moveNum then left.keys (j + leftSize - moveNum)
                      else if j = moveNum then parentKey
                      else if j < size + moveNum then self.keys (j - moveNum)
                      else self.keys j,
                    vals := fun j =>
                      if j < moveNum then left.vals (j + leftSize - moveNum)
                      else if j < size + moveNum then self.vals (j - moveNum)
                      else self.vals j }
                  let left2 := { left with size := leftSize - moveNum }
                  ((t.setPage parentId parent2).setPage pageId self2).setPage leftId left2
              else if parentSize < 3 ∧ rootPageId = parentId then
                let parentKey := parent.keys 1
                let root2 := { parent with
                  isLeaf := false, size := leftSize + size,
                  keys := fun j =>
                    if j = leftSize then parentKey
                    else if j = 0 then 0
                    else if j < leftSize then left.keys j
                    else if j < leftSize + size then self.keys (j - leftSize)
                    else parent.keys j,
                  vals := fun j =>
                    if j < leftSize then left.vals j
                    else if j < leftSize + size then self.vals (j - leftSize)
                    else parent.vals j }
                t.setPage parentId root2
              else
                let left2 := { left with
                  size := leftSize + size,
                  keys := fun j =>
                    if j = leftSize then parent.keys i
                    else if leftSize < j ∧ j < leftSize + size then self.keys (j - leftSize)
                    else left.keys j,
                  vals := fun j =>
                    if j = leftSize then self.vals 0
                    else if leftSize < j ∧ j < leftSize + size then self.vals (j - leftSize)
                    else left.vals j }
                let parent2 := removeAtCore parent i
                let t := (t.setPage leftId left2).setPage parentId parent2
                if 1 < parent2.size then t
                else doMergeLoop rootPageId fuel t parentId ws2
            else
              let rightId := parent.vals (i + 1)
              let right := t.page rightId
              let self := t.page pageId
              let rightSize := right.size
              let size := self.size
              if 2 < rightSize ∧ right.maxSize ≤ rightSize + size then
                let moveNum := if 2 < self.minSize then self.minSize else 2 - size
                if moveNum = 0 then t
                else
                  let parent2 := { parent with
                    keys := fun j => if j = i + 1 then right.keys moveNum
                      else parent.keys j }
                  let self2 := { self with
                    size := size + moveNum,
                    keys := fun j =>
                      if j = size then parent.keys (i + 1)
                      else if size < j ∧ j < size + moveNum then right.keys (j - size)
                      else self.keys j,
                    vals := fun j =>
                      if j = size then right.vals 0
                      else if size < j ∧ j < size + moveNum then right.vals (j - size)
                      else self.vals j }
                  let right2 := { right with
                    size := rightSize - moveNum,
                    keys := fun j =>
                      if j = 0 then 0
                      else if j < rightSize - moveNum then right.keys (j + moveNum)
                      else right.keys j,
                    vals := fun j =>
                      if j < rightSize - moveNum then right.vals (j + moveNum)
                      else right.vals j }
                  ((t.setPage parentId parent2).setPage pageId self2).setPage rightId right2
              else if parentSize < 3 ∧ rootPageId = parentId then
                let parentKey := parent.keys 1
                let root2 := { parent with
                  isLeaf := false, size := size + rightSize,
                  keys := fun j =>
                    if j = size then parentKey
                    else if j = 0 then 0
                    else if j < size then self.keys j
                    else if j < size + rightSize then right.keys (j - size)
                    else parent.keys j,
                  vals := fun j =>
                    if j < size then self.vals j
                    else if j < size + rightSize then right.vals (j - size)
                    else parent.vals j }
                t.setPage parentId root2
              else
                let self2 := { self with
                  size := size + rightSize,
                  keys := fun j =>
                    if j = size then parent.keys (i + 1)
                    else if size < j ∧ j < size + rightSize then right.keys (j - size)
                    else self.keys j,
                  vals := fun j =>
                    if j = size then right.vals 0
                    else if size < j ∧ j < size + rightSize then right.vals (j - size)
                    else self.vals j }
                let parent2 := removeAtCore parent (i + 1)
                let t := (t.setPage pageId self2).setPage parentId parent2
                if 1 < parent2.size then t
                else doMergeLoop rootPageId fuel t parentId ws2

/-- BPlusTree::DoMerge: pop the back guard, return if the node meets its
minimum occupancy (internal nodes additionally need size above 1), else
walk the path upward. -/
def doMerge (t : BPT) (ctx : BContext) : BPT :=
  match ctx.writeSet.getLast? with
  | none => t
  | some pid =>
    let ws := ctx.writeSet.dropLast
    let page := t.page pid
    if (page.isLeaf || decide (page.size > 1)) && decide (page.size ≥ page.minSize) then t
    else doMergeLoop ctx.rootPageId (ws.length + 1) t pid ws

/-- The descent loop of BPlusTree::Insert: chain the write guard, split
an overfull node eagerly (continuing from the node the split pushed
back), drop ancestor guards once the node has room (the cpp compares the
pre-split size against the current node max), then handle the leaf
(rejecting a duplicate before any change, splitting after an insertion
that reaches max) or descend into the child. -/
def bptInsertLoop (key : Nat) (v : Int) :
    Nat → BPT → BContext → Int → Bool × BPT
  | 0, t, _, _ => (false, t)
  | fuel + 1, t, ctx, start =>
    let ctx0 := { ctx with writeSet := ctx.writeSet ++ [start] }
    let page0 := t.page start
    let size0 := page0.size
    let step :=
      if 3 < size0 ∧ page0.maxSize ≤ size0 then
        let s2 := doSplit t ctx0
        (s2.1, s2.2, s2.1.page ((s2.2.writeSet.getLast?).getD (-1)))
      else (t, ctx0, page0)
    let t1 := step.1
    let ctx1 := step.2.1
    let page := step.2.2
    let ctx2 :=
      if size0 < page.maxSize ∧ 2 < ctx1.writeSet.length then
        { ctx1 with writeSet := ctx1.writeSet.drop (ctx1.writeSet.length - 2) }
      else ctx1
    let cur := (ctx2.writeSet.getLast?).getD (-1)
    let size := page.size
    if page.isLeaf then
      match leafSearch page.keys size key with
      | (some _, _) => (false, t1)
      | (none, lastMid) =>
        let idx : Nat :=
          if 0 < size then
            if key < page.keys lastMid.toNat then lastMid.toNat else lastMid.toNat + 1
          else lastMid.toNat
        let page2 := leafInsertAt page idx key v
        let t2 := t1.setPage cur page2
        if t2.leafMax ≤ page2.size then (true, (doSplit t2 ctx2).1)
        else (true, t2)
    else
      if size ≤ 1 then (false, t1)
      else
        let child := page.vals (internalSearch page.keys size key).toNat
        if child = -1 then (false, t1)
        else bptInsertLoop key v fuel t1 ctx2 child

/-- BPlusTree::Insert: create a root leaf when the header holds INVALID,
then run the descent. -/
def BPT.insert (t : BPT) (key : Nat) (v : Int) : Bool × BPT :=
  let t :=
    if t.rootId = -1 then
      let (rid, t2) := t.alloc
      let t2 := t2.setPage rid
        { isLeaf := true, size := 0, maxSize := t2.leafMax, nextId := -1,
          keys := fun _ => 0, vals := fun _ => 0 }
      { t2 with rootId := rid }
    else t
  bptInsertLoop key v (t.store.length + 2) t ⟨t.rootId, []⟩ t.rootId

/-- The descent loop of BPlusTree::Remove: like the insert descent (no
ancestor dropping); delete the key at the leaf and rebalance. -/
def bptRemoveLoop (key : Nat) :
    Nat → BPT → BContext → Int → BPT
  | 0, t, _, _ => t
  | fuel + 1, t, ctx, start =>
    let ctx0 := { ctx with writeSet := ctx.writeSet ++ [start] }
    let page0 := t.page start
    let size0 := page0.size
    let step :=
      if 3 < size0 ∧ page0.maxSize ≤ size0 then
        let s2 := doSplit t ctx0
        (s2.1, s2.2, s2.1.page ((s2.2.writeSet.getLast?).getD (-1)))
      else (t, ctx0, page0)
    let t1 := step.1
    let ctx1 := step.2.1
    let page := step.2.2
    let cur := (ctx1.writeSet.getLast?).getD (-1)
    let size := page.size
    if page.isLeaf then
      match leafSearch page.keys size key with
      | (some m, _) =>
        let t2 := t1.setPage cur (removeAtCore page m.toNat)
        doMerge t2 ctx1
      | (none, _) => t1
    else
      if size ≤ 1 then t1
      else
        let child := page.vals (internalSearch page.keys size key).toNat
        if child = -1 then t1
        else bptRemoveLoop key fuel t1 ctx1 child

/-- BPlusTree::Remove. -/
def BPT.remove (t : BPT) (key : Nat) : BPT :=
  if t.rootId = -1 then t
  else bptRemoveLoop key (t.store.length + 2) t ⟨t.rootId, []⟩ t.rootId

/-- An empty tree with the given orders, as left by the BPlusTree
constructor (header root id INVALID). -/
def BPT.empty (leafMax internalMax : Nat) : BPT :=
  ⟨[], -1, 0, leafMax, internalMax⟩

/-! ### Range iterator (index_iterator.cpp and Begin/End of the tree) -/

/-- The index iterator: the read guard is the identity of the guarded
leaf page (none for a null guard, as held by End()), plus the position.
Two guards on the same page share their data pointer, so pointer equality
of GetData is page identity. -/
structure BPTIterator where
  pageId : Option Int
  index : Int
  deriving Repr, DecidableEq

/-- IndexIterator returned by End(): null guard, index -1. -/
def endIter : BPTIterator := ⟨none, -1⟩

/-- IndexIterator::operator== from index_iterator.h: indices first, any
shared negative index is equal, otherwise compare the guarded data. -/
def iterEq (a b : BPTIterator) : Bool :=
  if a.index ≠ b.index then false
  else if a.index < 0 then true
  else decide (a.pageId = b.pageId)

/-- IndexIterator::operator!= from index_iterator.h. -/
def iterNe (a b : BPTIterator) : Bool :=
  if a.index = b.index ∧ a.index < 0 then false
  else decide (a.index ≠ b.index) || decide (a.pageId ≠ b.pageId)

/-- IndexIterator::IsEnd. -/
def BPT.isEnd (t : BPT) (it : BPTIterator) : Bool :=
  if it.index < 0 then true
  else
    match it.pageId with
    | none => true
    | some pid =>
      let page := t.page pid
      if page.nextId ≠ -1 then false
      else decide (page.size = 0)

/-- IndexIterator::operator*: the mapping at the current position. -/
def BPT.deref (t : BPT) (it : BPTIterator) : Nat × Int :=
  match it.pageId with
  | none => (0, 0)
  | some pid =>
    let page := t.page pid
    (page.keys it.index.toNat, page.vals it.index.toNat)

/-- IndexIterator::operator++: advance in the leaf, hop to the next leaf
when exhausted, enter the end state past the last leaf. -/
def BPT.incr (t : BPT) (it : BPTIterator) : BPTIterator :=
  match it.pageId with
  | none => { it with index := -1 }
  | some pid =>
    let page := t.page pid
    let idx := it.index + 1
    if idx < (page.size : Int) then { it with index := idx }
    else if page.nextId = -1 then ⟨none, -1⟩
    else ⟨some page.nextId, 0⟩

/-- The leftmost-descent loop of BPlusTree::Begin. -/
def bptBeginLoop : Nat → BPT → Int → Int
  | 0, _, _ => -1
  | fuel + 1, t, start =>
    match bptFind t.store start with
    | none => -1
    | some page =>
      if page.isLeaf then start
      else if page.size ≤ 1 then -1
      else
        let nxt := page.vals 0
        if nxt = -1 then -1 else bptBeginLoop fuel t nxt

/-- BPlusTree::Begin(): an iterator on the leftmost leaf at index 0, or
End() when the tree is empty or the descent fails. -/
def BPT.begin (t : BPT) : BPTIterator :=
  if t.rootId = -1 then endIter
  else
    let leaf := bptBeginLoop (t.store.length + 2) t t.rootId
    if leaf = -1 then endIter else ⟨some leaf, 0⟩

/-- A full forward traversal: the idiomatic loop from Begin() while the
iterator compares unequal to End(), collecting the dereferenced pairs. -/
def bptTraverseLoop (t : BPT) : Nat → BPTIterator → List (Nat × Int)
  | 0, _ => []
  | fuel + 1, it =>
    if iterNe it endIter then t.deref it :: bptTraverseLoop t fuel (t.incr it)
    else []

def BPT.traverse (t : BPT) (fuel : Nat) : List (Nat × Int) :=
  bptTraverseLoop t fuel t.begin

/-- Reference model of the net contents of an operation sequence (the
set S of the claims): a sorted association list with unique keys. -/
def refInsert (l : List (Nat × Int)) (k : Nat) (v : Int) : List (Nat × Int) :=
  match l with
  | [] => [(k, v)]
  | (k0, v0) :: rest =>
    if k < k0 then (k, v) :: (k0, v0) :: rest
    else if k = k0 then (k0, v0) :: rest
    else (k0, v0) :: refInsert rest k v

def refRemove (l : List (Nat × Int)) (k : Nat) : List (Nat × Int) :=
  l.filter (fun p => p.1 ≠ k)

/-- The descent of BPlusTree::GetValue: identical child choice to the
insert descent, with success exactly on an equal key in the leaf. -/
def bptGetValueLoop (key : Nat) : Nat → BPT → Int → Bool
  | 0, _, _ => false
  | fuel + 1, t, start =>
    match bptFind t.store start with
    | none => false
    | some page =>
      if page.size = 0 then false
      else if page.isLeaf then
        match leafSearch page.keys page.size key with
        | (some _, _) => true
        | (none, _) => false
      else if page.size ≤ 1 then false
      else
        let child := page.vals (internalSearch page.keys page.size key).toNat
        if child = -1 then false else bptGetValueLoop key fuel t child

/-- BPlusTree::GetValue (whether the key is present). -/
def BPT.getValue (t : BPT) (key : Nat) : Bool :=
  if t.rootId = -1 then false
  else bptGetValueLoop key (t.store.length + 2) t t.rootId

/-! ### Claim C1: ordered iteration versus net contents -/

/-- Inserting one key into the empty tree and removing it again leaves a
size-0 root leaf. -/
def c1Tree : BPT := (((BPT.empty 2 4).insert 1 99).2).remove 1

/-- Claim C1: after the operation sequence Insert(1,99); Remove(1) the
net contents are empty, yet Begin() of the resulting tree is an iterator
at index 0 on the empty root leaf: it compares unequal to End(), so the
Begin-to-End traversal visits one (stale) pair.  The code contradicts its
own IsEnd, which reports true for that very iterator. -/
theorem traverse_empty_tree_visits_garbage :
    c1Tree.traverse 10 = [(1, 99)] ∧
      refRemove (refInsert [] 1 99) 1 = [] ∧
      iterNe c1Tree.begin endIter = true ∧
      c1Tree.isEnd c1Tree.begin = true := by decide

/-! ### Claim C2: duplicate insertion -/

/-- Inserting 1, 2, 3, 4 with leaf order 2 and internal order 4 leaves
the root internal page exactly at its max size. -/
def c2Tree : BPT :=
  (List.range 4).foldl (fun t i => (t.insert (i + 1) (Int.ofNat (101 + i))).2)
    (BPT.empty 2 4)

/-- Claim C2 counterexample: inserting the already-present key 1 returns
false, but the descent first splits the overfull root eagerly: the root
page keeps its id yet its size changes from 4 to 2, refuting the claim
that the entire tree state is unchanged. -/
theorem insert_duplicate_presplit_mutates :
    (c2Tree.insert 1 999).1 = false ∧
      (c2Tree.page c2Tree.rootId).size = 4 ∧
      ((c2Tree.insert 1 999).2.page c2Tree.rootId).size = 2 ∧
      (c2Tree.insert 1 999).2.rootId = c2Tree.rootId := by decide

/-- No node of the tree is overfull (size above 3 and at max), so the
eager pre-split of the descent never fires. -/
def NoOverfull (t : BPT) : Prop :=
  ∀ p ∈ t.store, ¬(3 < p.2.size ∧ p.2.maxSize ≤ p.2.size)

/-! ### Claim C10: end-iterator comparison -/

/-- Claim C10 counterexample: two iterators with distinct negative
indices compare unequal, because operator== checks index equality before
the negative-index shortcut. -/
theorem iter_negative_indices_unequal :
    iterEq ⟨some 5, -1⟩ ⟨none, -2⟩ = false ∧
      iterNe ⟨some 5, -1⟩ ⟨none, -2⟩ = true := by decide

/-- Claim C10 amended: any two iterators with the same negative index
(in particular End() and any iterator advanced past the last leaf, which
both carry index -1) compare equal under operator== and not unequal under
operator!=, regardless of the guards they hold, and IsEnd() returns true
for every iterator with a negative index. -/
theorem iter_same_negative_index_equal (g1 g2 : Option Int) (i : Int)
    (h : i < 0) (t : BPT) :
    iterEq ⟨g1, i⟩ ⟨g2, i⟩ = true ∧ iterNe ⟨g1, i⟩ ⟨g2, i⟩ = false ∧
      t.isEnd ⟨g1, i⟩ = true := by
  refine ⟨?_, ?_, ?_⟩
  · simp [iterEq, h]
  · simp [iterNe, h]
  · simp [BPT.isEnd, h]

/-- Witness for the amended C10 theorem at concrete iterators. -/
theorem iter_same_negative_index_equal_witness :
    (-1 : Int) < 0 ∧
      (iterEq ⟨some 3, -1⟩ ⟨none, -1⟩ = true ∧
        iterNe ⟨some 3, -1⟩ ⟨none, -1⟩ = false ∧
        (BPT.empty 2 4).isEnd ⟨some 3, -1⟩ = true) :=
  ⟨by decide, iter_same_negative_index_equal (some 3) none (-1) (by decide) (BPT.empty 2 4)⟩

theorem bptFind_mem {store : List (Int × BPage)} {pid : Int} {p : BPage}
    (h : bptFind store pid = some p) : (pid, p) ∈ store := by
  induction store with
  | nil => simp [bptFind] at h
  | cons q rest ih =>
    obtain ⟨k, r⟩ := q
    unfold bptFind at h
    by_cases hk : k = pid
    · rw [if_pos hk] at h
      rw [Option.some_inj] at h
      rw [← hk, h]
      exact List.mem_cons_self _ _
    · rw [if_neg hk] at h
      exact List.mem_cons_of_mem _ (ih h)

/-- The guard bookkeeping of one non-splitting insert-descent step. -/
def insertCtxStep (t : BPT) (ctx : BContext) (start : Int) : BContext :=
  let ctx0 : BContext := { ctx with writeSet := ctx.writeSet ++ [start] }
  let page := t.page start
  if page.size < page.maxSize ∧ 2 < ctx0.writeSet.length then
    { ctx0 with writeSet := ctx0.writeSet.drop (ctx0.writeSet.length - 2) }
  else ctx0

/-- A non-overfull leaf holding the key makes the insert descent return
false with the tree untouched. -/
theorem bptInsertLoop_nosplit_leaf_dup (key : Nat) (v : Int) (fuel : Nat)
    (t : BPT) (ctx : BContext) (start : Int) (page : BPage) (m r : Int)
    (hfind : bptFind t.store start = some page)
    (hns : ¬(3 < page.size ∧ page.maxSize ≤ page.size))
    (hleaf : page.isLeaf = true)
    (hsearch : leafSearch page.keys page.size key = (some m, r)) :
    bptInsertLoop key v (fuel + 1) t ctx start = (false, t) := by
  have hpage : t.page start = page := by
    unfold BPT.page
    rw [hfind]
    rfl
  simp only [bptInsertLoop, hpage, hns, if_false, hleaf, if_true, hsearch]

/-- A non-overfull internal node on the way down only reshapes the crab
path and recurses into the chosen child. -/
theorem bptInsertLoop_nosplit_internal (key : Nat) (v : Int) (fuel : Nat)
    (t : BPT) (ctx : BContext) (start : Int) (page : BPage)
    (hfind : bptFind t.store start = some page)
    (hns : ¬(3 < page.size ∧ page.maxSize ≤ page.size))
    (hleaf : page.isLeaf = false) (hs1 : ¬page.size ≤ 1)
    (hch : ¬page.vals (internalSearch page.keys page.size key).toNat = -1) :
    bptInsertLoop key v (fuel + 1) t ctx start =
      bptInsertLoop key v fuel t (insertCtxStep t ctx start)
        (page.vals (internalSearch page.keys page.size key).toNat) := by
  have hpage : t.page start = page := by
    unfold BPT.page
    rw [hfind]
    rfl
  simp only [bptInsertLoop, insertCtxStep, hpage, hns, if_false, hleaf,
    Bool.false_eq_true, hs1, hch]

/-- The duplicate-rejecting descent: on a tree without overfull nodes, a
key that GetValue finds makes the insert descent return false and leave
the tree state untouched. -/
theorem bptInsertLoop_present_unchanged (key : Nat) (v : Int) :
    ∀ (fuel : Nat) (t : BPT) (ctx : BContext) (start : Int),
      NoOverfull t → bptGetValueLoop key fuel t start = true →
      bptInsertLoop key v fuel t ctx start = (false, t) := by
  intro fuel
  induction fuel with
  | zero =>
    intro t ctx start _ hget
    simp [bptGetValueLoop] at hget
  | succ fuel ih =>
    intro t ctx start hno hget
    unfold bptGetValueLoop at hget
    cases hfind : bptFind t.store start with
    | none =>
      rw [hfind] at hget
      simp at hget
    | some page =>
      rw [hfind] at hget
      simp only at hget
      have hns : ¬(3 < page.size ∧ page.maxSize ≤ page.size) :=
        hno (start, page) (bptFind_mem hfind)
      by_cases hsz : page.size = 0
      · rw [if_pos hsz] at hget
        simp at hget
      · rw [if_neg hsz] at hget
        by_cases hleaf : page.isLeaf = true
        · rw [if_pos hleaf] at hget
          cases hsearch : leafSearch page.keys page.size key with
          | mk o r =>
            rw [hsearch] at hget
            cases o with
            | none => simp at hget
            | some m =>
              exact bptInsertLoop_nosplit_leaf_dup key v fuel t ctx start page m r
                hfind hns hleaf hsearch
        · have hlf : page.isLeaf = false := by
            simpa using hleaf
          rw [if_neg hleaf] at hget
          by_cases hs1 : page.size ≤ 1
          · rw [if_pos hs1] at hget
            simp at hget
          · rw [if_neg hs1] at hget
            by_cases hch : page.vals (internalSearch page.keys page.size key).toNat = -1
            · rw [if_pos hch] at hget
              simp at hget
            · rw [if_neg hch] at hget
              rw [bptInsertLoop_nosplit_internal key v fuel t ctx start page
                hfind hns hlf hs1 hch]
              exact ih t (insertCtxStep t ctx start) _ hno hget

/-- Claim C2 amended: Insert of a key already present returns false, and
whenever no node of the tree is overfull (so the eager split on descent
cannot fire), the entire tree state is left unchanged.  When an overfull
node sits on the path, the descent may pre-split it before detecting the
duplicate, changing node sizes and contents (see the counterexample). -/
theorem insert_present_key_unchanged (t : BPT) (key : Nat) (v : Int)
    (hno : NoOverfull t) (hfound : t.getValue key = true) :
    t.insert key v = (false, t) := by
  unfold BPT.getValue at hfound
  by_cases hroot : t.rootId = -1
  · rw [if_pos hroot] at hfound
    exact absurd hfound (by simp)
  · rw [if_neg hroot] at hfound
    unfold BPT.insert
    rw [if_neg hroot]
    exact bptInsertLoop_present_unchanged key v (t.store.length + 2) t
      ⟨t.rootId, []⟩ t.rootId hno hfound

/-- A two-key single-leaf tree for the C2 witness. -/
def c2Witness : BPT := ((((BPT.empty 4 4).insert 1 101).2).insert 2 102).2

/-- Witness for the amended C2 theorem at a concrete tree. -/
theorem insert_present_key_unchanged_witness :
    NoOverfull c2Witness ∧ c2Witness.getValue 1 = true ∧
      c2Witness.insert 1 999 = (false, c2Witness) :=
  ⟨by unfold NoOverfull; decide, by decide,
    insert_present_key_unchanged c2Witness 1 999 (by unfold NoOverfull; decide) (by decide)⟩

end BusTub